import Mathlib

/-!
Verification of the PDF-Compare tool (`pdf_comparer.py`) against its design
specification.  Python strings are embedded as `List Char`; the relevant parts
of CPython's `difflib` (which the tool calls for its diff, its unified-diff
rendering and its similarity ratio) are embedded faithfully, including the
autojunk handling of `SequenceMatcher`, since the tool's observable behaviour
depends on them.
-/

namespace PDFCompare

/-! ## Python string model: `str.splitlines` and `'\n'.join` -/

/-- The line-break characters recognized by Python's `str.splitlines`. -/
def isLineBreakChar (c : Char) : Bool :=
  c = '\n' || c = '\r' || c = '\x0b' || c = '\x0c' ||
  c = '\x1c' || c = '\x1d' || c = '\x1e' || c = '\x85' ||
  c = '\u2028' || c = '\u2029'

/-- Worker for `splitlines`: `cur` is the (reversed) current line. -/
def splitlinesGo : List Char → List Char → List (List Char)
  | '\r' :: '\n' :: rest, cur => cur.reverse :: splitlinesGo rest []
  | c :: rest, cur =>
      if isLineBreakChar c then cur.reverse :: splitlinesGo rest []
      else splitlinesGo rest (c :: cur)
  | [], cur => if cur.isEmpty then [] else [cur.reverse]

/-- Python `s.splitlines()`: a trailing terminator yields no empty final line,
and `"".splitlines() == []`. -/
def splitlines (s : List Char) : List (List Char) :=
  splitlinesGo s []

/-- Python `'\n'.join(pages)`. -/
def joinPages (pages : List (List Char)) : List Char :=
  List.intercalate ['\n'] pages

/-! ## CPython `difflib.SequenceMatcher` (as called with `isjunk = None`)

The tool calls `difflib.unified_diff` (line granularity) and
`difflib.SequenceMatcher(None, text1, text2).ratio()` (character granularity),
so the matcher is embedded generically over the element type. -/

variable {α : Type*} [DecidableEq α]

/-- Ascending list of positions of `c` in `b` (the entry `b2j[c]` before
autojunk pruning). -/
def occList (b : List α) (c : α) : List ℕ :=
  (List.range b.length).filter (fun j => b.get? j = some c)

/-- `SequenceMatcher.__chain_b` with `isjunk = None` and `autojunk = True`:
when `len(b) >= 200`, elements occurring more than `len(b) // 100 + 1` times
are "popular" and their index lists are dropped; `b2j.get(x, [])` then
returns `[]` for them. -/
def seqB2j (b : List α) (c : α) : List ℕ :=
  let occ := occList b c
  if 200 ≤ b.length ∧ b.length / 100 + 1 < occ.length then [] else occ

/-- Python `a[i] == b[j]` on valid indices (all call sites index in range). -/
def eqAt (a b : List α) (i j : ℕ) : Bool :=
  match a.get? i, b.get? j with
  | some x, some y => decide (x = y)
  | _, _ => false

/-- The running best match `(besti, bestj, bestsize)` of
`find_longest_match`. -/
structure FlmBest where
  besti : ℕ
  bestj : ℕ
  bestsize : ℕ
deriving DecidableEq, Repr

/-- Inner loop of `find_longest_match` over `b2j.get(a[i], [])`: `j < blo`
is skipped (`continue`), the first `j ≥ bhi` stops the row (`break`); the new
row records chain lengths `newj2len[j] = j2len.get(j-1, 0) + 1` (the lookup at
`j - 1 = -1` hits the absent key, hence the explicit `j = 0` test), and the
best match is replaced whenever a strictly longer chain appears. -/
def flmInner (i blo bhi : ℕ) (prevRow : ℕ → ℕ) :
    List ℕ → (ℕ → ℕ) → FlmBest → ((ℕ → ℕ) × FlmBest)
  | [], newRow, best => (newRow, best)
  | j :: js, newRow, best =>
      if j < blo then flmInner i blo bhi prevRow js newRow best
      else if bhi ≤ j then (newRow, best)
      else
        let k := (if j = 0 then 0 else prevRow (j - 1)) + 1
        let newRow' : ℕ → ℕ := fun j' => if j' = j then k else newRow j'
        let best' := if best.bestsize < k then ⟨i + 1 - k, j + 1 - k, k⟩ else best
        flmInner i blo bhi prevRow js newRow' best'

/-- Outer loop of `find_longest_match` over the rows `i ∈ [alo, ahi)`;
each row starts from a fresh empty `newj2len`. -/
def flmRows (a : List α) (b2jf : α → List ℕ) (blo bhi : ℕ) :
    List ℕ → ((ℕ → ℕ) × FlmBest) → ((ℕ → ℕ) × FlmBest)
  | [], st => st
  | i :: is, st =>
      let js := match a.get? i with
        | some c => b2jf c
        | none => []
      let st' := flmInner i blo bhi st.1 js (fun _ => 0) st.2
      flmRows a b2jf blo bhi is st'

/-- First extension loop of `find_longest_match`: grow the best match
backwards while the adjacent elements agree (`isjunk = None`, so the junk
test `not isbjunk(b[bestj-1])` is vacuously true).  Structural recursion on
`besti`; at `besti = 0` the loop guard `alo < besti` is false, so the state
is returned unchanged, exactly as the `while` loop does. -/
def extendBack (a b : List α) (alo blo : ℕ) : ℕ → ℕ → ℕ → ℕ × ℕ × ℕ
  | 0, bestj, bestsize => (0, bestj, bestsize)
  | besti + 1, bestj, bestsize =>
      if alo < besti + 1 ∧ blo < bestj ∧ eqAt a b besti (bestj - 1) = true then
        extendBack a b alo blo besti (bestj - 1) (bestsize + 1)
      else (besti + 1, bestj, bestsize)

/-- Second extension loop of `find_longest_match`, with explicit fuel.  The
caller passes fuel `ahi - (besti + bestsize)`; each iteration preserves the
invariant `fuel = ahi - (besti + bestsize)`, so when the fuel reaches 0 the
loop guard `besti + bestsize < ahi` is false anyway and returning
`bestsize` matches the `while` loop exactly. -/
def extendFwdGo (a b : List α) (ahi bhi besti bestj : ℕ) : ℕ → ℕ → ℕ
  | 0, bestsize => bestsize
  | fuel + 1, bestsize =>
      if besti + bestsize < ahi ∧ bestj + bestsize < bhi ∧
          eqAt a b (besti + bestsize) (bestj + bestsize) = true then
        extendFwdGo a b ahi bhi besti bestj fuel (bestsize + 1)
      else bestsize

/-- Second extension loop of `find_longest_match`: grow the best match
forwards while the adjacent elements agree. -/
def extendFwd (a b : List α) (ahi bhi besti bestj bestsize : ℕ) : ℕ :=
  extendFwdGo a b ahi bhi besti bestj (ahi - (besti + bestsize)) bestsize

/-- `SequenceMatcher.find_longest_match(alo, ahi, blo, bhi)`.  The two final
junk-absorption loops of the CPython source never fire because the matcher is
constructed with `isjunk = None` (empty junk set), so they are omitted. -/
def find_longest_match (a b : List α) (b2jf : α → List ℕ)
    (alo ahi blo bhi : ℕ) : ℕ × ℕ × ℕ :=
  let st := flmRows a b2jf blo bhi (List.range' alo (ahi - alo))
    (fun _ => 0, ⟨alo, blo, 0⟩)
  let m := extendBack a b alo blo st.2.besti st.2.bestj st.2.bestsize
  (m.1, m.2.1, extendFwd a b ahi bhi m.1 m.2.1 m.2.2)

/-! ### Range bounds of `find_longest_match` -/

/-- Bounds of a candidate best match `(bi, bj, bs)` relative to the requested
rectangle `[alo, ahi) × [blo, bhi)`. -/
def BestRange (alo ahi blo bhi bi bj bs : ℕ) : Prop :=
  alo ≤ bi ∧ blo ≤ bj ∧ (bs = 0 → bi = alo ∧ bj = blo) ∧
  (bs ≠ 0 → bi + bs ≤ ahi ∧ bj + bs ≤ bhi)

/-- Bounds of a chain-length row built while processing row `i`: every
recorded chain fits inside `[blo, j]` on the `b` side and `[alo, i]` on the
`a` side. -/
def RowRange (alo blo i : ℕ) (row : ℕ → ℕ) : Prop :=
  ∀ j, row j ≠ 0 → blo ≤ j ∧ row j + blo ≤ j + 1 ∧ row j + alo ≤ i + 1

lemma flmInner_range {alo ahi i blo bhi : ℕ} (hi : alo ≤ i) (hia : i < ahi)
    {prevRow : ℕ → ℕ}
    (Hprev : ∀ j, prevRow j ≠ 0 →
      blo ≤ j ∧ prevRow j + blo ≤ j + 1 ∧ prevRow j + alo ≤ i)
    (js : List ℕ) :
    ∀ (newRow : ℕ → ℕ) (best : FlmBest),
      RowRange alo blo i newRow →
      BestRange alo ahi blo bhi best.besti best.bestj best.bestsize →
      RowRange alo blo i (flmInner i blo bhi prevRow js newRow best).1 ∧
      BestRange alo ahi blo bhi
        (flmInner i blo bhi prevRow js newRow best).2.besti
        (flmInner i blo bhi prevRow js newRow best).2.bestj
        (flmInner i blo bhi prevRow js newRow best).2.bestsize := by
  induction js with
  | nil =>
      intro newRow best hrow hbest
      exact ⟨hrow, hbest⟩
  | cons j js ih =>
      intro newRow best hrow hbest
      rw [flmInner]
      by_cases h1 : j < blo
      · simp only [if_pos h1]
        exact ih _ _ hrow hbest
      · simp only [if_neg h1]
        by_cases h2 : bhi ≤ j
        · simp only [if_pos h2]
          exact ⟨hrow, hbest⟩
        · simp only [if_neg h2]
          have hblo : blo ≤ j := Nat.le_of_not_lt h1
          have hbhi : j < bhi := Nat.lt_of_not_le h2
          have hk : (if j = 0 then 0 else prevRow (j - 1)) + 1 + blo ≤ j + 1 ∧
              (if j = 0 then 0 else prevRow (j - 1)) + 1 + alo ≤ i + 1 := by
            split
            · omega
            · next hj0 =>
                by_cases hp : prevRow (j - 1) = 0
                · rw [hp]; omega
                · have := Hprev (j - 1) hp
                  omega
          apply ih
          · intro j' hj'
            by_cases hjj : j' = j
            · subst hjj
              simp only [if_pos rfl]
              exact ⟨hblo, hk.1, hk.2⟩
            · simp only [if_neg hjj] at hj' ⊢
              exact hrow j' hj'
          · by_cases hcmp :
              best.bestsize < (if j = 0 then 0 else prevRow (j - 1)) + 1
            · simp only [if_pos hcmp]
              refine ⟨by omega, by omega, by simp, fun _ => ⟨?_, ?_⟩⟩ <;> omega
            · simp only [if_neg hcmp]
              exact hbest

lemma flmRows_range (a : List α) (b2jf : α → List ℕ) {alo ahi blo bhi : ℕ} :
    ∀ (cnt s : ℕ) (st : (ℕ → ℕ) × FlmBest), alo ≤ s → s + cnt = ahi →
      (∀ j, st.1 j ≠ 0 → blo ≤ j ∧ st.1 j + blo ≤ j + 1 ∧ st.1 j + alo ≤ s) →
      BestRange alo ahi blo bhi st.2.besti st.2.bestj st.2.bestsize →
      BestRange alo ahi blo bhi
        (flmRows a b2jf blo bhi (List.range' s cnt) st).2.besti
        (flmRows a b2jf blo bhi (List.range' s cnt) st).2.bestj
        (flmRows a b2jf blo bhi (List.range' s cnt) st).2.bestsize := by
  intro cnt
  induction cnt with
  | zero =>
      intro s st _ _ _ hbest
      exact hbest
  | succ n ih =>
      intro s st hs hcnt hrow hbest
      rw [List.range'_succ, flmRows]
      have hinner := @flmInner_range alo ahi s blo bhi hs (by omega) st.1 hrow
        (match a.get? s with | some c => b2jf c | none => [])
        (fun _ => 0) st.2 (fun j h => absurd rfl h) hbest
      apply ih (s + 1)
      · omega
      · omega
      · intro j hj
        have h1 := hinner.1 j hj
        omega
      · exact hinner.2

lemma extendBack_range (a b : List α) {alo ahi blo bhi : ℕ} :
    ∀ (besti bestj bestsize : ℕ),
      BestRange alo ahi blo bhi besti bestj bestsize →
      BestRange alo ahi blo bhi
        (extendBack a b alo blo besti bestj bestsize).1
        (extendBack a b alo blo besti bestj bestsize).2.1
        (extendBack a b alo blo besti bestj bestsize).2.2 := by
  intro besti
  induction besti with
  | zero =>
      intro bestj bestsize hbest
      exact hbest
  | succ n ih =>
      intro bestj bestsize hbest
      rw [extendBack]
      by_cases h : alo < n + 1 ∧ blo < bestj ∧ eqAt a b n (bestj - 1) = true
      · rw [if_pos h]
        apply ih
        obtain ⟨hb1, hb2, hb3, hb4⟩ := hbest
        refine ⟨by omega, by omega, by omega, fun _ => ?_⟩
        by_cases hz : bestsize = 0
        · have h0 := hb3 hz
          subst hz
          omega
        · have := hb4 hz
          omega
      · rw [if_neg h]
        exact hbest

lemma extendFwdGo_range (a b : List α) {ahi bhi : ℕ} (besti bestj : ℕ) :
    ∀ (fuel bestsize : ℕ),
      (bestsize ≠ 0 → besti + bestsize ≤ ahi ∧ bestj + bestsize ≤ bhi) →
      (extendFwdGo a b ahi bhi besti bestj fuel bestsize ≠ 0 →
        besti + extendFwdGo a b ahi bhi besti bestj fuel bestsize ≤ ahi ∧
        bestj + extendFwdGo a b ahi bhi besti bestj fuel bestsize ≤ bhi) := by
  intro fuel
  induction fuel with
  | zero =>
      intro bestsize hb
      exact hb
  | succ n ih =>
      intro bestsize hb
      rw [extendFwdGo]
      by_cases h : besti + bestsize < ahi ∧ bestj + bestsize < bhi ∧
          eqAt a b (besti + bestsize) (bestj + bestsize) = true
      · rw [if_pos h]
        exact ih (bestsize + 1) (fun _ => by omega)
      · rw [if_neg h]
        exact hb

lemma extendFwd_range (a b : List α) {ahi bhi : ℕ} (besti bestj : ℕ)
    (bestsize : ℕ)
    (hb : bestsize ≠ 0 → besti + bestsize ≤ ahi ∧ bestj + bestsize ≤ bhi) :
    extendFwd a b ahi bhi besti bestj bestsize ≠ 0 →
      besti + extendFwd a b ahi bhi besti bestj bestsize ≤ ahi ∧
      bestj + extendFwd a b ahi bhi besti bestj bestsize ≤ bhi :=
  extendFwdGo_range a b besti bestj (ahi - (besti + bestsize)) bestsize hb

/-- The match returned by `find_longest_match` lies inside the requested
rectangle; an empty match is the untouched `(alo, blo, 0)`. -/
lemma flm_range (a b : List α) (b2jf : α → List ℕ) (alo ahi blo bhi : ℕ) :
    alo ≤ (find_longest_match a b b2jf alo ahi blo bhi).1 ∧
    blo ≤ (find_longest_match a b b2jf alo ahi blo bhi).2.1 ∧
    ((find_longest_match a b b2jf alo ahi blo bhi).2.2 ≠ 0 →
      (find_longest_match a b b2jf alo ahi blo bhi).1 +
        (find_longest_match a b b2jf alo ahi blo bhi).2.2 ≤ ahi ∧
      (find_longest_match a b b2jf alo ahi blo bhi).2.1 +
        (find_longest_match a b b2jf alo ahi blo bhi).2.2 ≤ bhi) := by
  have hinit : BestRange alo ahi blo bhi alo blo 0 :=
    ⟨le_rfl, le_rfl, fun _ => ⟨rfl, rfl⟩, fun h => absurd rfl h⟩
  have hrows : BestRange alo ahi blo bhi
      (flmRows a b2jf blo bhi (List.range' alo (ahi - alo))
        (fun _ => 0, ⟨alo, blo, 0⟩)).2.besti
      (flmRows a b2jf blo bhi (List.range' alo (ahi - alo))
        (fun _ => 0, ⟨alo, blo, 0⟩)).2.bestj
      (flmRows a b2jf blo bhi (List.range' alo (ahi - alo))
        (fun _ => 0, ⟨alo, blo, 0⟩)).2.bestsize := by
    by_cases hao : alo ≤ ahi
    · exact flmRows_range a b2jf (ahi - alo) alo _ le_rfl (by omega)
        (fun j h => absurd rfl h) hinit
    · have : ahi - alo = 0 := by omega
      rw [this]
      exact hinit
  set st := flmRows a b2jf blo bhi (List.range' alo (ahi - alo))
    (fun _ => 0, ⟨alo, blo, 0⟩) with hst
  have hback := extendBack_range a b st.2.besti st.2.bestj st.2.bestsize hrows
  set m := extendBack a b alo blo st.2.besti st.2.bestj st.2.bestsize with hm
  have hfwd := @extendFwd_range _ _ a b ahi bhi m.1 m.2.1
    m.2.2 (fun h => (hback.2.2.2) h)
  refine ⟨hback.1, hback.2.1, fun h => hfwd h⟩

/-! ### `get_matching_blocks`, `get_opcodes`, `get_grouped_opcodes`, `ratio` -/

/-- Termination measure for the range stack of `get_matching_blocks`. -/
def stackMeasure : List (ℕ × ℕ × ℕ × ℕ) → ℕ
  | [] => 0
  | (alo, ahi, blo, bhi) :: rest => (ahi - alo) + (bhi - blo) + 1 + stackMeasure rest

lemma stackMeasure_append (xs ys : List (ℕ × ℕ × ℕ × ℕ)) :
    stackMeasure (xs ++ ys) = stackMeasure xs + stackMeasure ys := by
  induction xs with
  | nil => simp [stackMeasure]
  | cons x xs ih =>
      obtain ⟨alo, ahi, blo, bhi⟩ := x
      simp [stackMeasure, ih]
      omega

lemma gmb_measure (alo ahi blo bhi i j k : ℕ) (rest : List (ℕ × ℕ × ℕ × ℕ))
    (h1 : alo ≤ i) (h2 : blo ≤ j) (hk : k ≠ 0)
    (h3 : i + k ≤ ahi) (h4 : j + k ≤ bhi) :
    stackMeasure
      ((if i + k < ahi ∧ j + k < bhi then [(i + k, ahi, j + k, bhi)] else []) ++
        (if alo < i ∧ blo < j then [(alo, i, blo, j)] else []) ++ rest) <
    stackMeasure ((alo, ahi, blo, bhi) :: rest) := by
  rw [stackMeasure_append, stackMeasure_append]
  split <;> split <;> simp only [stackMeasure] <;> omega

/-- The stack loop of `get_matching_blocks`, with explicit fuel: `queue.pop()`
takes the most recently pushed range (the right subrange is pushed after the
left one, so it is popped first); subranges are pushed only around a nonempty
match.  By `gmb_measure`, every iteration strictly decreases `stackMeasure`,
so fuel `stackMeasure stack` (as passed by `gmbLoop`) outlasts the loop and
the 0-fuel case is never reached with a nonempty stack.  The collected
matches are sorted afterwards, so accumulation order is immaterial. -/
def gmbLoopGo (a b : List α) (b2jf : α → List ℕ) :
    ℕ → List (ℕ × ℕ × ℕ × ℕ) → List (ℕ × ℕ × ℕ) → List (ℕ × ℕ × ℕ)
  | _, [], acc => acc
  | 0, _ :: _, acc => acc
  | fuel + 1, (alo, ahi, blo, bhi) :: rest, acc =>
      let m := find_longest_match a b b2jf alo ahi blo bhi
      if m.2.2 ≠ 0 then
        gmbLoopGo a b b2jf fuel
          ((if m.1 + m.2.2 < ahi ∧ m.2.1 + m.2.2 < bhi then
              [(m.1 + m.2.2, ahi, m.2.1 + m.2.2, bhi)] else []) ++
            (if alo < m.1 ∧ blo < m.2.1 then [(alo, m.1, blo, m.2.1)] else []) ++
            rest)
          (m :: acc)
      else gmbLoopGo a b b2jf fuel rest acc

/-- The stack loop of `get_matching_blocks`. -/
def gmbLoop (a b : List α) (b2jf : α → List ℕ)
    (stack : List (ℕ × ℕ × ℕ × ℕ)) (acc : List (ℕ × ℕ × ℕ)) :
    List (ℕ × ℕ × ℕ) :=
  gmbLoopGo a b b2jf (stackMeasure stack) stack acc

/-- Lexicographic order on `(i, j, k)` triples: the order `list.sort()` uses
on Python tuples. -/
def tripleLE (x y : ℕ × ℕ × ℕ) : Bool :=
  x.1 < y.1 || (x.1 = y.1 && (x.2.1 < y.2.1 || (x.2.1 = y.2.1 && x.2.2 ≤ y.2.2)))

def insertSorted (x : ℕ × ℕ × ℕ) : List (ℕ × ℕ × ℕ) → List (ℕ × ℕ × ℕ)
  | [] => [x]
  | y :: ys => if tripleLE x y then x :: y :: ys else y :: insertSorted x ys

/-- `matching_blocks.sort()`: a stable sort in a total order; any sorting
algorithm yields the same list, so an insertion sort stands in for Timsort. -/
def sortBlocks : List (ℕ × ℕ × ℕ) → List (ℕ × ℕ × ℕ)
  | [] => []
  | x :: xs => insertSorted x (sortBlocks xs)

/-- The adjacent-block collapsing pass at the end of `get_matching_blocks`
(starting from `i1 = j1 = k1 = 0`), followed by the `(la, lb, 0)` sentinel. -/
def collapseGo (la lb : ℕ) : ℕ → ℕ → ℕ → List (ℕ × ℕ × ℕ) → List (ℕ × ℕ × ℕ)
  | i1, j1, k1, [] => (if k1 ≠ 0 then [(i1, j1, k1)] else []) ++ [(la, lb, 0)]
  | i1, j1, k1, (i2, j2, k2) :: rest =>
      if i1 + k1 = i2 ∧ j1 + k1 = j2 then collapseGo la lb i1 j1 (k1 + k2) rest
      else (if k1 ≠ 0 then [(i1, j1, k1)] else []) ++ collapseGo la lb i2 j2 k2 rest

/-- `SequenceMatcher.get_matching_blocks()`. -/
def get_matching_blocks (a b : List α) : List (ℕ × ℕ × ℕ) :=
  collapseGo a.length b.length 0 0 0
    (sortBlocks (gmbLoop a b (seqB2j b) [(0, a.length, 0, b.length)] []))

/-- `difflib._calculate_ratio`, in exact rational arithmetic in place of IEEE
doubles (the claims proved about it are insensitive to this choice: `1.0` and
strict inequalities with `0`/`1` are exact in both). -/
def calculate_ratio (m length : ℕ) : ℚ :=
  if length ≠ 0 then (2 * m : ℚ) / length else 1

/-- `SequenceMatcher.ratio()`. -/
def sm_ratio (a b : List α) : ℚ :=
  calculate_ratio (((get_matching_blocks a b).map (fun t => t.2.2)).sum)
    (a.length + b.length)

/-- Diff opcode tags. -/
inductive Tag
  | replace
  | delete
  | insert
  | equal
deriving DecidableEq, Repr, Inhabited

/-- One opcode `(tag, i1, i2, j1, j2)`. -/
structure Op where
  tag : Tag
  i1 : ℕ
  i2 : ℕ
  j1 : ℕ
  j2 : ℕ
deriving DecidableEq, Repr, Inhabited

/-- The loop of `get_opcodes` over the matching blocks, carrying the cursor
pair `(i, j)`. -/
def opcodesGo : ℕ → ℕ → List (ℕ × ℕ × ℕ) → List Op
  | _, _, [] => []
  | i, j, (ai, bj, size) :: rest =>
      (if i < ai ∧ j < bj then [⟨Tag.replace, i, ai, j, bj⟩]
       else if i < ai then [⟨Tag.delete, i, ai, j, bj⟩]
       else if j < bj then [⟨Tag.insert, i, ai, j, bj⟩]
       else []) ++
      (if size ≠ 0 then [⟨Tag.equal, ai, ai + size, bj, bj + size⟩] else []) ++
      opcodesGo (ai + size) (bj + size) rest

/-- `SequenceMatcher.get_opcodes()`. -/
def get_opcodes (a b : List α) : List Op :=
  opcodesGo 0 0 (get_matching_blocks a b)

/-- `codes[0]` adjustment of `get_grouped_opcodes`: shrink a leading `equal`
run to `n` lines of context. -/
def trimHead (n : ℕ) : List Op → List Op
  | [] => []
  | c :: rest =>
      if c.tag = Tag.equal then
        ⟨c.tag, max c.i1 (c.i2 - n), c.i2, max c.j1 (c.j2 - n), c.j2⟩ :: rest
      else c :: rest

/-- `codes[-1]` adjustment of `get_grouped_opcodes`: shrink a trailing
`equal` run to `n` lines of context. -/
def trimLast (n : ℕ) : List Op → List Op
  | [] => []
  | [c] =>
      if c.tag = Tag.equal then
        [⟨c.tag, c.i1, min c.i2 (c.i1 + n), c.j1, min c.j2 (c.j1 + n)⟩]
      else [c]
  | c :: rest => c :: trimLast n rest

/-- Final `yield` of `get_grouped_opcodes`: the pending group is emitted
unless it is a single `equal` opcode. -/
def yieldFinal : List Op → List (List Op)
  | [] => []
  | [c] => if c.tag = Tag.equal then [] else [[c]]
  | group => [group]

/-- The grouping loop of `get_grouped_opcodes`: an interior `equal` run
longer than `2n` closes the current group with `n` lines of context and
starts the next group with the trailing `n` lines of context. -/
def groupGo (n : ℕ) : List Op → List Op → List (List Op)
  | group, [] => yieldFinal group
  | group, c :: rest =>
      if c.tag = Tag.equal ∧ n + n < c.i2 - c.i1 then
        (group ++ [⟨c.tag, c.i1, min c.i2 (c.i1 + n), c.j1, min c.j2 (c.j1 + n)⟩]) ::
          groupGo n [⟨c.tag, max c.i1 (c.i2 - n), c.i2, max c.j1 (c.j2 - n), c.j2⟩] rest
      else groupGo n (group ++ [c]) rest

/-- `SequenceMatcher.get_grouped_opcodes(n)` (the unified-diff default is
`n = 3`), with the generator's yields collected into a list. -/
def get_grouped_opcodes (a b : List α) (n : ℕ) : List (List Op) :=
  let codes := get_opcodes a b
  groupGo n []
    (trimLast n (trimHead n (if codes = [] then [⟨Tag.equal, 0, 1, 0, 1⟩] else codes)))

/-! ### `difflib.unified_diff` (with `lineterm=''` and no file dates) -/

/-- Decimal digit character for `d < 10`. -/
def digitChar (d : ℕ) : Char := Char.ofNat ('0'.toNat + d)

/-- Decimal digits worker with explicit fuel: the invariant `n ≤ fuel` holds
at every call (`n / 10 ≤ n - 9` when `10 ≤ n`), so the 0-fuel case only ever
sees `n = 0 < 10` and prints the single digit, exactly like the
recursion it replaces. -/
def natDecGo : ℕ → ℕ → List Char
  | 0, n => [digitChar n]
  | fuel + 1, n =>
      if n < 10 then [digitChar n]
      else natDecGo fuel (n / 10) ++ [digitChar (n % 10)]

/-- Decimal representation of `n`, as printed by Python's `'{}'.format`. -/
def natDec (n : ℕ) : List Char := natDecGo n n

/-- `difflib._format_range_unified(start, stop)`. -/
def format_range_unified (start stop : ℕ) : List Char :=
  let beginning := start + 1
  let length := stop - start
  if length = 1 then natDec beginning
  else
    natDec (if length = 0 then beginning - 1 else beginning) ++
      [','] ++ natDec length

/-- Python `xs[lo:hi]` for natural bounds. -/
def pySliceNat {β : Type*} (xs : List β) (lo hi : ℕ) : List β :=
  (xs.drop lo).take (hi - lo)

/-- The body lines one opcode contributes to a unified-diff hunk. -/
def opBodyLines (a b : List (List Char)) (c : Op) : List (List Char) :=
  match c.tag with
  | Tag.equal => (pySliceNat a c.i1 c.i2).map (fun l => ' ' :: l)
  | Tag.replace =>
      (pySliceNat a c.i1 c.i2).map (fun l => '-' :: l) ++
        (pySliceNat b c.j1 c.j2).map (fun l => '+' :: l)
  | Tag.delete => (pySliceNat a c.i1 c.i2).map (fun l => '-' :: l)
  | Tag.insert => (pySliceNat b c.j1 c.j2).map (fun l => '+' :: l)

/-- The `@@ -… +… @@` header of a hunk (groups are always nonempty; the
default opcode is never read). -/
def hunkHeader (g : List Op) : List Char :=
  "@@ -".data ++
    format_range_unified g.headI.i1 ((g.getLastD default).i2) ++
    " +".data ++
    format_range_unified g.headI.j1 ((g.getLastD default).j2) ++
    " @@".data

/-- `difflib.unified_diff(a, b, fromfile, tofile, lineterm='')` as the tool
calls it: no file dates, so the two header lines are exactly
`'--- ' + fromfile` and `'+++ ' + tofile`, emitted only when at least one
group exists. -/
def unified_diff (a b : List (List Char)) (fromfile tofile : List Char) :
    List (List Char) :=
  let groups := get_grouped_opcodes a b 3
  if groups = [] then []
  else
    ("--- ".data ++ fromfile) :: ("+++ ".data ++ tofile) ::
      groups.bind (fun g => hunkHeader g :: g.bind (opBodyLines a b))

/-! ## `PDFComparer` text comparison (`compare_text` and its helpers) -/

/-- Python `xs[lo:hi]` with Python's int-slice semantics (negative indices
wrap from the end, out-of-range indices clamp). -/
def pySlice {β : Type*} (xs : List β) (lo hi : ℤ) : List β :=
  let n : ℤ := xs.length
  let norm : ℤ → ℤ := fun i => if i < 0 then max 0 (n + i) else min i n
  (xs.drop (norm lo).toNat).take ((norm hi).toNat - (norm lo).toNat)

/-- `PDFComparer._get_context(lines, line_num)` with the default
`context_size = 2`: `(before, after) = (lines[max(0, line_num-2):line_num],
lines[line_num+1:min(len(lines), line_num+3)])`. -/
def get_context (lines : List (List Char)) (line_num : ℤ) :
    List (List Char) × List (List Char) :=
  (pySlice lines (max 0 (line_num - 2)) line_num,
   pySlice lines (line_num + 1) (min (lines.length : ℤ) (line_num + 1 + 2)))

/-- Loop of `_find_page_for_line`; `total` is `len(pages)`, used by the
final fallback return. -/
def findPageLoop (total : ℕ) (line_num : ℤ) :
    List (List Char) → ℕ → ℤ → ℤ × ℤ
  | [], _, _ => ((total : ℤ), 0)
  | p :: rest, idx, current =>
      if line_num ≤ current + (splitlines p).length then
        ((idx : ℤ) + 1, line_num - current)
      else findPageLoop total line_num rest (idx + 1) (current + (splitlines p).length)

/-- `PDFComparer._find_page_for_line(line_num, pages)`: first page whose
cumulative line span reaches `line_num`, else `(len(pages), 0)`. -/
def find_page_for_line (line_num : ℤ) (pages : List (List Char)) : ℤ × ℤ :=
  findPageLoop pages.length line_num pages 0 0

/-- ASCII decimal digit (the only digits occurring in generated hunk
headers, the sole lines the extraction loop feeds to its regex). -/
def isDigitChar (c : Char) : Bool := decide ('0' ≤ c) && decide (c ≤ '9')

/-- Greedy parse of a nonempty digit run: the regex fragment `(\d+)`. -/
def parseNatList (cs : List Char) : Option (ℕ × List Char) :=
  let ds := cs.takeWhile isDigitChar
  if ds.isEmpty then none
  else some (ds.foldl (fun acc c => 10 * acc + (c.toNat - '0'.toNat)) 0,
    cs.dropWhile isDigitChar)

/-- The optional fragment `(?:,(\d+))?`: consume `,digits` when present,
otherwise leave the input unchanged (the regex backtracks out of a lone
comma). -/
def skipOptComma (cs : List Char) : List Char :=
  match cs with
  | ',' :: rest =>
      match parseNatList rest with
      | some (_, rest') => rest'
      | none => cs
  | _ => cs

/-- `re.match(r'@@ -(\d+)(?:,(\d+))? \+(\d+)(?:,(\d+))? @@', line)`,
returning `(int(match.group(1)), int(match.group(3)))` as
`_extract_detailed_positions` uses it (`re.match` anchors at the start of
the line and ignores trailing text). -/
def parseHunkHeader (line : List Char) : Option (ℤ × ℤ) :=
  match line with
  | '@' :: '@' :: ' ' :: '-' :: rest =>
      match parseNatList rest with
      | none => none
      | some (n1, rest1) =>
          match skipOptComma rest1 with
          | rest2 =>
            match rest2 with
            | ' ' :: '+' :: rest3 =>
                match parseNatList rest3 with
                | none => none
                | some (n2, rest4) =>
                    match skipOptComma rest4 with
                    | rest5 =>
                      match rest5 with
                      | ' ' :: '@' :: '@' :: _ => some ((n1 : ℤ), (n2 : ℤ))
                      | _ => none
            | _ => none
  | _ => none

/-- Kind of a detailed difference entry. -/
inductive EntryType
  | removed
  | added
deriving DecidableEq, Repr

/-- Which input document an entry refers to. -/
inductive SideFile
  | pdf1
  | pdf2
deriving DecidableEq, Repr

/-- One entry of `detailed_differences` (the dict built at
`pdf_comparer.py:188` / `:201`). -/
structure DiffEntry where
  type : EntryType
  content : List Char
  page : ℤ
  line : ℤ
  line_in_page : ℤ
  file : SideFile
  context_before : List (List Char)
  context_after : List (List Char)
deriving DecidableEq, Repr

/-- Loop of `_extract_detailed_positions` over the diff lines, carrying the
cursors `current_line1` / `current_line2` (Python ints: a hunk header whose
range starts at 0 sets a cursor to `-1`, hence `ℤ`). -/
def extractGo (lines1 lines2 pages1 pages2 : List (List Char)) :
    List (List Char) → ℤ → ℤ → List DiffEntry
  | [], _, _ => []
  | line :: rest, cl1, cl2 =>
      if ("@@".data).isPrefixOf line then
        match parseHunkHeader line with
        | some (n1, n2) =>
            extractGo lines1 lines2 pages1 pages2 rest (n1 - 1) (n2 - 1)
        | none => extractGo lines1 lines2 pages1 pages2 rest cl1 cl2
      else if ("---".data).isPrefixOf line || ("+++".data).isPrefixOf line then
        extractGo lines1 lines2 pages1 pages2 rest cl1 cl2
      else if ("-".data).isPrefixOf line then
        { type := EntryType.removed,
          content := line.drop 1,
          page := (find_page_for_line cl1 pages1).1,
          line := cl1 + 1,
          line_in_page := (find_page_for_line cl1 pages1).2,
          file := SideFile.pdf1,
          context_before := (get_context lines1 cl1).1,
          context_after := (get_context lines1 cl1).2 } ::
          extractGo lines1 lines2 pages1 pages2 rest (cl1 + 1) cl2
      else if ("+".data).isPrefixOf line then
        { type := EntryType.added,
          content := line.drop 1,
          page := (find_page_for_line cl2 pages2).1,
          line := cl2 + 1,
          line_in_page := (find_page_for_line cl2 pages2).2,
          file := SideFile.pdf2,
          context_before := (get_context lines2 cl2).1,
          context_after := (get_context lines2 cl2).2 } ::
          extractGo lines1 lines2 pages1 pages2 rest cl1 (cl2 + 1)
      else extractGo lines1 lines2 pages1 pages2 rest (cl1 + 1) (cl2 + 1)

/-- `PDFComparer._extract_detailed_positions(diff_lines, lines1, lines2,
pages1, pages2)` (both cursors start at 0). -/
def extract_detailed_positions
    (diff_lines lines1 lines2 pages1 pages2 : List (List Char)) :
    List DiffEntry :=
  extractGo lines1 lines2 pages1 pages2 diff_lines 0 0

/-- The `statistics` block of a text-comparison result. -/
structure TextStats where
  lines_added : ℕ
  lines_removed : ℕ
  total_changes : ℕ
  char_count1 : ℕ
  char_count2 : ℕ
  line_count1 : ℕ
  line_count2 : ℕ
deriving DecidableEq, Repr

/-- A successful text-comparison result dict: exactly one of
`detailed_differences` / `diff_preview` is present. -/
structure TextOk where
  identical : Bool
  similarity : ℚ
  statistics : TextStats
  detailed_differences : Option (List DiffEntry)
  diff_preview : Option (List (List Char))
deriving DecidableEq, Repr

/-- Successful body of `PDFComparer.compare_text` over the page texts that
the external extraction backend (`_extract_text_by_page`) returned. -/
def compare_text_ok (pages1 pages2 : List (List Char))
    (name1 name2 : List Char) (detailed : Bool) : TextOk :=
  let text1 := joinPages pages1
  let text2 := joinPages pages2
  let lines1 := splitlines text1
  let lines2 := splitlines text2
  let diff_lines := unified_diff lines1 lines2 name1 name2
  let added := (diff_lines.filter
    (fun l => ("+".data).isPrefixOf l && ! ("+++".data).isPrefixOf l)).length
  let removed := (diff_lines.filter
    (fun l => ("-".data).isPrefixOf l && ! ("---".data).isPrefixOf l)).length
  { identical := decide (text1 = text2),
    similarity := sm_ratio text1 text2,
    statistics :=
      ⟨added, removed, added + removed,
        text1.length, text2.length, lines1.length, lines2.length⟩,
    detailed_differences :=
      if detailed && ! diff_lines.isEmpty then
        some (extract_detailed_positions diff_lines lines1 lines2 pages1 pages2)
      else none,
    diff_preview :=
      if detailed && ! diff_lines.isEmpty then none
      else some (diff_lines.take 20) }

/-- Result of `compare_text`: the error dict or a successful result. -/
inductive TextResult
  | error (msg : List Char)
  | ok (r : TextOk)
deriving DecidableEq, Repr

/-- The error message of the text-comparison capability gate
("text comparison unavailable, PyMuPDF required"). -/
def textUnavailableMsg : List Char := "文本比较功能不可用，需要安装PyMuPDF".data

/-- `PDFComparer.compare_text(pdf1, pdf2, detailed)`: the capability gate
followed by the pure comparison body. -/
def compare_text (cap : Bool) (pages1 pages2 : List (List Char))
    (name1 name2 : List Char) (detailed : Bool) : TextResult :=
  if ¬ cap then TextResult.error textUnavailableMsg
  else TextResult.ok (compare_text_ok pages1 pages2 name1 name2 detailed)

/-! ## Visual, structure, metadata and basic-info comparators -/

/-- A rendered page as the visual comparator sees it: the PIL size and the
flattened contents of the numpy pixel array (`arr.size = data.length`). -/
structure Image where
  width : ℕ
  height : ℕ
  data : List ℕ
deriving DecidableEq, Repr

/-- One element of `page_similarities`. -/
structure PageSim where
  page : ℕ
  similarity : ℚ
  different_pixels : ℕ
  total_pixels : ℕ
deriving DecidableEq, Repr

/-- A successful visual-comparison result dict. -/
structure VisualOk where
  identical : Bool
  overall_similarity : ℚ
  page_count : ℕ
  page_similarities : List PageSim
deriving DecidableEq, Repr

/-- Result of `compare_visual`: the capability/exception error dict, the
page-count-mismatch dict (which carries `identical: False` *and* an `error`
key), or a successful result. -/
inductive VisualResult
  | error (msg : List Char)
  | pageCountMismatch (n1 n2 : ℕ)
  | ok (r : VisualOk)
deriving DecidableEq, Repr

/-- Gate message: "visual comparison unavailable, pdf2image and poppler
required". -/
def visualUnavailableMsg : List Char := "视觉比较不可用，需要安装pdf2image和poppler".data

/-- `f'页数不同: {len(images1)} vs {len(images2)}'` — "page counts differ". -/
def pageCountMismatchMsg (n1 n2 : ℕ) : List Char :=
  "页数不同: ".data ++ natDec n1 ++ " vs ".data ++ natDec n2

/-- The `except` branch when a pixel array or the page list is empty and the
Python float division raises `ZeroDivisionError`. -/
def visualZeroDivMsg : List Char := "视觉比较失败: division by zero".data

/-- `np.count_nonzero(arr1 != arr2)` on the flattened equal-shaped arrays. -/
def diffPixels (xs ys : List ℕ) : ℕ :=
  ((xs.zip ys).filter (fun p => p.1 != p.2)).length

/-- One iteration of the page loop of `compare_visual`: resize the second
image when the PIL sizes differ (`resize` is the external PIL backend), then
count differing entries. -/
def visualPage (resize : Image → ℕ × ℕ → Image) (idx : ℕ)
    (img1 img2 : Image) : PageSim :=
  let img2' := if (img1.width, img1.height) ≠ (img2.width, img2.height) then
      resize img2 (img1.width, img1.height)
    else img2
  let dp := diffPixels img1.data img2'.data
  let tp := img1.data.length
  ⟨idx + 1, 1 - (dp : ℚ) / tp, dp, tp⟩

/-- `PDFComparer.compare_visual(pdf1, pdf2, dpi)` over the page images the
rendering backend returned.  The ℚ value `999/1000` stands for the float
literal `0.999`; no proved claim depends on that threshold. -/
def compare_visual (cap : Bool) (resize : Image → ℕ × ℕ → Image)
    (images1 images2 : List Image) : VisualResult :=
  if ¬ cap then VisualResult.error visualUnavailableMsg
  else if images1.length ≠ images2.length then
    VisualResult.pageCountMismatch images1.length images2.length
  else if images1.isEmpty || images1.any (fun i => i.data.isEmpty) then
    VisualResult.error visualZeroDivMsg
  else
    let sims := (images1.zip images2).enum.map
      (fun p => visualPage resize p.1 p.2.1 p.2.2)
    let overall := (sims.map (fun s => s.similarity)).sum / (sims.length : ℚ)
    VisualResult.ok
      ⟨decide ((999 : ℚ) / 1000 < overall), overall, images1.length, sims⟩

/-- A `{pdf1, pdf2, identical}` sub-dict over naturals. -/
structure NumPair where
  pdf1 : ℕ
  pdf2 : ℕ
  identical : Bool
deriving DecidableEq, Repr

/-- One element of the `tables` list of the structure comparison. -/
structure TablePage where
  page : ℕ
  tables_pdf1 : ℕ
  tables_pdf2 : ℕ
  identical : Bool
deriving DecidableEq, Repr

/-- A successful structure-comparison result dict. -/
structure StructureOk where
  page_count : NumPair
  tables : List TablePage
  identical : Bool
deriving DecidableEq, Repr

inductive StructureResult
  | error (msg : List Char)
  | ok (r : StructureOk)
deriving DecidableEq, Repr

/-- Gate message: "structure analysis unavailable, pdfplumber required". -/
def structureUnavailableMsg : List Char := "结构分析不可用，需要安装pdfplumber".data

/-- `PDFComparer.compare_structure(pdf1, pdf2)` over the per-page extracted
table counts the pdfplumber backend returned (`len(tables) if tables else 0`
is that count; page counts are the list lengths). -/
def compare_structure (cap : Bool) (tables1 tables2 : List ℕ) : StructureResult :=
  if ¬ cap then StructureResult.error structureUnavailableMsg
  else
    let n1 := tables1.length
    let n2 := tables2.length
    let tinfo := (List.range (min n1 n2)).map (fun i =>
      TablePage.mk (i + 1) (tables1.getD i 0) (tables2.getD i 0)
        (decide (tables1.getD i 0 = tables2.getD i 0)))
    StructureResult.ok
      ⟨⟨n1, n2, decide (n1 = n2)⟩, tinfo,
        decide (n1 = n2) && tinfo.all (fun t => t.identical)⟩

/-- A `{pdf1, pdf2, identical}` sub-dict over strings (file hashes). -/
structure HashPair where
  pdf1 : List Char
  pdf2 : List Char
  identical : Bool
deriving DecidableEq, Repr

/-- One key of the metadata comparison. -/
structure MetaEntry where
  key : List Char
  pdf1 : List Char
  pdf2 : List Char
  identical : Bool
deriving DecidableEq, Repr

/-- A successful metadata-comparison result dict; its top-level `identical`
is the conjunction over the metadata keys only (the file hash is reported
but not folded in). -/
structure MetadataOk where
  file_hash : HashPair
  metadata : List MetaEntry
  identical : Bool
deriving DecidableEq, Repr

inductive MetadataResult
  | error (msg : List Char)
  | ok (r : MetadataOk)
deriving DecidableEq, Repr

/-- Gate message: "metadata comparison unavailable, PyMuPDF required". -/
def metadataUnavailableMsg : List Char := "元数据比较不可用，需要安装PyMuPDF".data

/-- `metadata.get(key, '')`. -/
def lookupMeta (m : List (List Char × List Char)) (k : List Char) : List Char :=
  (((m.find? (fun p => p.1 == k)).map Prod.snd)).getD []

/-- `PDFComparer.compare_metadata(pdf1, pdf2)` over the metadata dicts and the
whole-file MD5 hex digests the backends returned.  Python iterates the key
*set* union in unspecified order; the order only permutes the report dict, so
the union is modelled as first-occurrence deduplication. -/
def compare_metadata (cap : Bool) (meta1 meta2 : List (List Char × List Char))
    (hash1 hash2 : List Char) : MetadataResult :=
  if ¬ cap then MetadataResult.error metadataUnavailableMsg
  else
    let allKeys := (meta1.map Prod.fst ++ meta2.map Prod.fst).dedup
    let entries := allKeys.map (fun k =>
      MetaEntry.mk k (lookupMeta meta1 k) (lookupMeta meta2 k)
        (decide (lookupMeta meta1 k = lookupMeta meta2 k)))
    MetadataResult.ok
      ⟨⟨hash1, hash2, decide (hash1 = hash2)⟩, entries,
        entries.all (fun e => e.identical)⟩

/-- `PDFComparer.compare_basic_info(pdf1, pdf2)` (over existing files, so the
`try` body succeeds): note that the dict carries *no* top-level `identical`
key — only the nested per-field flags. -/
structure BasicInfoOk where
  file_size : NumPair
  page_count : Option NumPair
deriving DecidableEq, Repr

def compare_basic_info (hasPyMuPDF : Bool) (size1 size2 pc1 pc2 : ℕ) :
    BasicInfoOk :=
  { file_size := ⟨size1, size2, decide (size1 = size2)⟩,
    page_count :=
      if hasPyMuPDF then some ⟨pc1, pc2, decide (pc1 = pc2)⟩ else none }

/-! ## `comprehensive_compare`: orchestration and aggregation -/

/-- Capability flags computed once by `_check_capabilities`. -/
structure Caps where
  hasPyMuPDF : Bool
  hasPdf2Image : Bool
  popplerOk : Bool
  hasPdfPlumber : Bool
deriving DecidableEq, Repr

def Caps.text_comparison (c : Caps) : Bool := c.hasPyMuPDF

def Caps.visual_comparison (c : Caps) : Bool := c.hasPdf2Image && c.popplerOk

def Caps.structure_analysis (c : Caps) : Bool := c.hasPdfPlumber

def Caps.metadata_comparison (c : Caps) : Bool := c.hasPyMuPDF

/-- The selectable method names (`basic_info` always runs and is not
selectable). -/
inductive MethodName
  | text_comparison
  | visual_comparison
  | structure_analysis
  | metadata_comparison
deriving DecidableEq, Repr

/-- Everything the external backends can return for one pair of files; the
orchestrator and the comparators are pure functions of this data. -/
structure Backend where
  exists1 : Bool
  exists2 : Bool
  path1 : List Char
  path2 : List Char
  name1 : List Char
  name2 : List Char
  size1 : ℕ
  size2 : ℕ
  pages1 : List (List Char)
  pages2 : List (List Char)
  images1 : List Image
  images2 : List Image
  resize : Image → ℕ × ℕ → Image
  tables1 : List ℕ
  tables2 : List ℕ
  meta1 : List (List Char × List Char)
  meta2 : List (List Char × List Char)
  hash1 : List Char
  hash2 : List Char

/-- One stored per-method result dict, with uniform access to the `error`
and the top-level `identical` key that the aggregation loop reads. -/
inductive AnyResult
  | basic (r : BasicInfoOk)
  | text (r : TextResult)
  | visual (r : VisualResult)
  | structural (r : StructureResult)
  | metadata (r : MetadataResult)

/-- Whether `'error' in result`, and its value. -/
def AnyResult.errorKey : AnyResult → Option (List Char)
  | basic _ => none
  | text (TextResult.error m) => some m
  | text (TextResult.ok _) => none
  | visual (VisualResult.error m) => some m
  | visual (VisualResult.pageCountMismatch n1 n2) =>
      some (pageCountMismatchMsg n1 n2)
  | visual (VisualResult.ok _) => none
  | structural (StructureResult.error m) => some m
  | structural (StructureResult.ok _) => none
  | metadata (MetadataResult.error m) => some m
  | metadata (MetadataResult.ok _) => none

/-- Whether `'identical' in result` at top level, and its value.  The
successful `basic_info` dict has none; the visual page-count-mismatch dict
carries `identical: False` (alongside its `error` key). -/
def AnyResult.identicalKey : AnyResult → Option Bool
  | basic _ => none
  | text (TextResult.error _) => none
  | text (TextResult.ok r) => some r.identical
  | visual (VisualResult.error _) => none
  | visual (VisualResult.pageCountMismatch _ _) => some false
  | visual (VisualResult.ok r) => some r.identical
  | structural (StructureResult.error _) => none
  | structural (StructureResult.ok r) => some r.identical
  | metadata (MetadataResult.error _) => none
  | metadata (MetadataResult.ok r) => some r.identical

/-- The `results['results']` dict of `comprehensive_compare`: `basic_info`
always first, then each selected method in source order
(`pdf_comparer.py:503-517`). -/
def comprehensiveResults (be : Backend) (caps : Caps)
    (methods : List MethodName) : List AnyResult :=
  [AnyResult.basic (compare_basic_info caps.hasPyMuPDF be.size1 be.size2
      be.pages1.length be.pages2.length)] ++
  (if MethodName.text_comparison ∈ methods then
    [AnyResult.text (compare_text caps.text_comparison be.pages1 be.pages2
      be.name1 be.name2 true)]
  else []) ++
  (if MethodName.visual_comparison ∈ methods then
    [AnyResult.visual (compare_visual caps.visual_comparison be.resize
      be.images1 be.images2)]
  else []) ++
  (if MethodName.structure_analysis ∈ methods then
    [AnyResult.structural (compare_structure caps.structure_analysis
      be.tables1 be.tables2)]
  else []) ++
  (if MethodName.metadata_comparison ∈ methods then
    [AnyResult.metadata (compare_metadata caps.metadata_comparison
      be.meta1 be.meta2 be.hash1 be.hash2)]
  else [])

/-- The `identical_checks` list: the `identical` value of every result with
no `error` key and an `identical` key (`pdf_comparer.py:520-523`). -/
def identicalChecks (rs : List AnyResult) : List Bool :=
  rs.filterMap (fun r => if r.errorKey = none then r.identicalKey else none)

/-- The `summary` block. -/
structure Summary where
  overall_identical : Bool
  checks_passed : ℕ
  checks_total : ℕ
  has_errors : Bool
deriving DecidableEq, Repr

/-- `summary` computation (`pdf_comparer.py:525-530`):
`all(checks) if checks else False`, `sum(checks) if checks else 0`,
`len(checks)`, `any('error' in r for r in results)`. -/
def mkSummary (rs : List AnyResult) : Summary :=
  let checks := identicalChecks rs
  { overall_identical := if ¬ checks.isEmpty then checks.all id else false,
    checks_passed := if ¬ checks.isEmpty then (checks.filter id).length else 0,
    checks_total := checks.length,
    has_errors := rs.any (fun r => r.errorKey ≠ none) }

/-- Default method selection when the caller passes `methods=None`: every
available capability, in capability-dict order. -/
def defaultMethods (caps : Caps) : List MethodName :=
  (if caps.text_comparison then [MethodName.text_comparison] else []) ++
  (if caps.visual_comparison then [MethodName.visual_comparison] else []) ++
  (if caps.structure_analysis then [MethodName.structure_analysis] else []) ++
  (if caps.metadata_comparison then [MethodName.metadata_comparison] else [])

/-- A complete comparison report. -/
structure Report where
  methods_used : List MethodName
  results : List AnyResult
  summary : Summary

/-- Result of `comprehensive_compare`: a top-level error dict (missing input
file) or a report. -/
inductive ComprehensiveResult
  | topError (msg : List Char)
  | report (r : Report)

/-- `f'文件不存在: {path}'` — "file does not exist". -/
def fileMissingMsg (p : List Char) : List Char := "文件不存在: ".data ++ p

/-- `PDFComparer.comprehensive_compare(pdf1, pdf2, methods)`. -/
def comprehensive_compare (be : Backend) (caps : Caps)
    (methodsOpt : Option (List MethodName)) : ComprehensiveResult :=
  if ¬ be.exists1 then ComprehensiveResult.topError (fileMissingMsg be.path1)
  else if ¬ be.exists2 then ComprehensiveResult.topError (fileMissingMsg be.path2)
  else
    let methods := methodsOpt.getD (defaultMethods caps)
    let rs := comprehensiveResults be caps methods
    ComprehensiveResult.report ⟨methods, rs, mkSummary rs⟩

/-! ## Page/line resolution: cumulative spans (claims C3, C4) -/

/-- Line span `len(page_text.splitlines())` of page `k` (0 past the end). -/
def pageSpan (pages : List (List Char)) (k : ℕ) : ℕ :=
  match pages.get? k with
  | some p => (splitlines p).length
  | none => 0

/-- Cumulative line span of the first `k` pages. -/
def cumSpan (pages : List (List Char)) (k : ℕ) : ℕ :=
  ((pages.take k).map (fun p => (splitlines p).length)).sum

lemma cumSpan_succ (pages : List (List Char)) (k : ℕ) :
    cumSpan pages (k + 1) = cumSpan pages k + pageSpan pages k := by
  unfold cumSpan pageSpan
  rw [List.take_succ, List.get?_eq_getElem?]
  cases h : pages[k]? <;> simp [h]

lemma cumSpan_mono (pages : List (List Char)) {q p : ℕ} (h : q ≤ p) :
    cumSpan pages q ≤ cumSpan pages p := by
  induction p with
  | zero => simp_all
  | succ n ih =>
      rcases Nat.lt_or_ge q (n + 1) with hq | hq
      · calc cumSpan pages q ≤ cumSpan pages n := ih (by omega)
        _ ≤ cumSpan pages (n + 1) := by rw [cumSpan_succ]; omega
      · have : q = n + 1 := by omega
        rw [this]

lemma findPageLoop_found (ln : ℤ) (pages : List (List Char)) (hne : pages ≠ []) :
    ∀ (rest : List (List Char)) (idx : ℕ),
      pages.drop idx = rest →
      ln ≤ (cumSpan pages pages.length : ℤ) →
      (∀ q : ℕ, 1 ≤ q → q ≤ idx → (cumSpan pages q : ℤ) < ln) →
      ∃ p : ℕ, idx < p ∧ p ≤ pages.length ∧
        findPageLoop pages.length ln rest idx ((cumSpan pages idx : ℕ) : ℤ) =
          ((p : ℤ), ln - (cumSpan pages (p - 1) : ℤ)) ∧
        ln ≤ (cumSpan pages p : ℤ) ∧
        (∀ q : ℕ, 1 ≤ q → q < p → (cumSpan pages q : ℤ) < ln) := by
  intro rest
  induction rest with
  | nil =>
      intro idx hdrop htot hpre
      exfalso
      have hlen : pages.length ≤ idx := by
        have := List.drop_eq_nil_iff_le.mp hdrop
        exact this
      have h1 : 1 ≤ pages.length := by
        cases pages with
        | nil => exact absurd rfl hne
        | cons _ _ => simp
      have := hpre pages.length h1 hlen
      omega
  | cons p rest ih =>
      intro idx hdrop htot hpre
      have hget : pages.get? idx = some p := by
        have h0 : (pages.drop idx).get? 0 = some p := by rw [hdrop]; rfl
        rwa [List.get?_drop, Nat.add_zero] at h0
      have hidx : idx < pages.length := by
        have := List.get?_eq_some.mp hget
        exact this.1
      have hspan : pageSpan pages idx = (splitlines p).length := by
        unfold pageSpan
        rw [hget]
      have hsucc := cumSpan_succ pages idx
      rw [findPageLoop]
      by_cases hc : ln ≤ ((cumSpan pages idx : ℕ) : ℤ) + (splitlines p).length
      · rw [if_pos hc]
        refine ⟨idx + 1, by omega, by omega, ?_, ?_, ?_⟩
        · have : ((idx : ℤ) + 1, ln - ((cumSpan pages idx : ℕ) : ℤ)) =
              (((idx + 1 : ℕ) : ℤ), ln - ((cumSpan pages (idx + 1 - 1) : ℕ) : ℤ)) := by
            simp
          rw [this]
        · push_cast [hsucc, hspan]
          omega
        · intro q h1 hq
          exact hpre q h1 (by omega)
      · rw [if_neg hc]
        have hdrop' : pages.drop (idx + 1) = rest := by
          have : pages.drop (idx + 1) = (pages.drop idx).drop 1 := by
            rw [List.drop_drop, Nat.add_comm]
          rw [this, hdrop]
          rfl
        have hpre' : ∀ q : ℕ, 1 ≤ q → q ≤ idx + 1 → (cumSpan pages q : ℤ) < ln := by
          intro q h1 hq
          rcases Nat.lt_or_ge q (idx + 1) with h | h
          · exact hpre q h1 (by omega)
          · have : q = idx + 1 := by omega
            rw [this]
            push_cast [hsucc, hspan]
            omega
        have := ih (idx + 1) hdrop' htot hpre'
        obtain ⟨pp, hp1, hp2, hp3, hp4, hp5⟩ := this
        refine ⟨pp, by omega, hp2, ?_, hp4, hp5⟩
        rw [← hp3]
        congr 1
        push_cast [hsucc, hspan]
        omega

lemma findPageLoop_fallback (ln : ℤ) (pages : List (List Char))
    (htot : (cumSpan pages pages.length : ℤ) < ln) :
    ∀ (rest : List (List Char)) (idx : ℕ),
      pages.drop idx = rest →
      findPageLoop pages.length ln rest idx ((cumSpan pages idx : ℕ) : ℤ) =
        ((pages.length : ℤ), 0) := by
  intro rest
  induction rest with
  | nil =>
      intro idx _
      rfl
  | cons p rest ih =>
      intro idx hdrop
      have hget : pages.get? idx = some p := by
        have h0 : (pages.drop idx).get? 0 = some p := by rw [hdrop]; rfl
        rwa [List.get?_drop, Nat.add_zero] at h0
      have hidx : idx < pages.length := (List.get?_eq_some.mp hget).1
      have hspan : pageSpan pages idx = (splitlines p).length := by
        unfold pageSpan
        rw [hget]
      have hsucc := cumSpan_succ pages idx
      have hmono := cumSpan_mono pages (p := pages.length) (q := idx + 1) (by omega)
      rw [findPageLoop, if_neg (by push_cast at htot ⊢; omega)]
      have hdrop' : pages.drop (idx + 1) = rest := by
        have : pages.drop (idx + 1) = (pages.drop idx).drop 1 := by
          rw [List.drop_drop, Nat.add_comm]
        rw [this, hdrop]
        rfl
      have := ih (idx + 1) hdrop'
      rw [← this]
      congr 1
      push_cast [hsucc, hspan]
      omega

/-- C3: for every global line number `ln` and non-empty page table, the
resolver returns the first page whose cumulative (inclusive) span reaches
`ln`, with in-page line number `ln` minus the cumulative span of the prior
pages; and whenever `ln` exceeds the total span it returns
`(len(pages), 0)`. -/
theorem C3_page_line_resolution (ln : ℤ) (pages : List (List Char))
    (hne : pages ≠ []) :
    (ln ≤ (cumSpan pages pages.length : ℤ) →
      ∃ p : ℕ, 1 ≤ p ∧ p ≤ pages.length ∧
        find_page_for_line ln pages =
          ((p : ℤ), ln - (cumSpan pages (p - 1) : ℤ)) ∧
        ln ≤ (cumSpan pages p : ℤ) ∧
        (∀ q : ℕ, 1 ≤ q → q < p → (cumSpan pages q : ℤ) < ln)) ∧
    ((cumSpan pages pages.length : ℤ) < ln →
      find_page_for_line ln pages = ((pages.length : ℤ), 0)) := by
  constructor
  · intro htot
    have h0 : ((cumSpan pages 0 : ℕ) : ℤ) = 0 := by
      unfold cumSpan
      simp
    have := findPageLoop_found ln pages hne pages 0 (by simp) htot
      (fun q h1 hq => by omega)
    obtain ⟨p, hp0, hp2, hp3, hp4, hp5⟩ := this
    refine ⟨p, by omega, hp2, ?_, hp4, hp5⟩
    unfold find_page_for_line
    rw [← hp3, h0]
  · intro htot
    have h0 : ((cumSpan pages 0 : ℕ) : ℤ) = 0 := by
      unfold cumSpan
      simp
    have := findPageLoop_fallback ln pages htot pages 0 (by simp)
    unfold find_page_for_line
    rw [← this, h0]

/-- Witness for C3 at the concrete input `ln = 2`, `pages = ["a\\nb"]`. -/
theorem C3_page_line_resolution_witness :
    ([['a', '\n', 'b']] : List (List Char)) ≠ [] ∧
    (((2 : ℤ) ≤ (cumSpan [['a', '\n', 'b']]
        ([['a', '\n', 'b']] : List (List Char)).length : ℤ) →
      ∃ p : ℕ, 1 ≤ p ∧ p ≤ ([['a', '\n', 'b']] : List (List Char)).length ∧
        find_page_for_line 2 [['a', '\n', 'b']] =
          ((p : ℤ), 2 - (cumSpan [['a', '\n', 'b']] (p - 1) : ℤ)) ∧
        (2 : ℤ) ≤ (cumSpan [['a', '\n', 'b']] p : ℤ) ∧
        (∀ q : ℕ, 1 ≤ q → q < p → (cumSpan [['a', '\n', 'b']] q : ℤ) < 2)) ∧
      ((cumSpan [['a', '\n', 'b']]
          ([['a', '\n', 'b']] : List (List Char)).length : ℤ) < 2 →
        find_page_for_line 2 [['a', '\n', 'b']] =
          ((([['a', '\n', 'b']] : List (List Char)).length : ℤ), 0))) :=
  ⟨by decide, C3_page_line_resolution 2 [['a', '\n', 'b']] (by decide)⟩

/-! ## Aggregation facts (claims C6, C7, C9, C10) -/

lemma mem_identicalChecks (rs : List AnyResult) (b : Bool) :
    b ∈ identicalChecks rs ↔
      ∃ r ∈ rs, r.errorKey = none ∧ r.identicalKey = some b := by
  unfold identicalChecks
  rw [List.mem_filterMap]
  constructor
  · rintro ⟨r, hr, hf⟩
    by_cases he : r.errorKey = none
    · rw [if_pos he] at hf
      exact ⟨r, hr, he, hf⟩
    · rw [if_neg he] at hf
      cases hf
  · rintro ⟨r, hr, he, hk⟩
    exact ⟨r, hr, by rw [if_pos he]; exact hk⟩

lemma identicalChecks_ne_nil (rs : List AnyResult) :
    identicalChecks rs ≠ [] ↔
      ∃ r ∈ rs, r.errorKey = none ∧ r.identicalKey ≠ none := by
  unfold identicalChecks
  rw [Ne, List.filterMap_eq_nil_iff]
  push_neg
  constructor
  · rintro ⟨r, hr, hf⟩
    by_cases he : r.errorKey = none
    · rw [if_pos he] at hf
      exact ⟨r, hr, he, hf⟩
    · rw [if_neg he] at hf
      exact absurd rfl hf
  · rintro ⟨r, hr, he, hk⟩
    exact ⟨r, hr, by rw [if_pos he]; exact hk⟩

lemma summary_overall_iff (rs : List AnyResult) :
    (mkSummary rs).overall_identical = true ↔
      (identicalChecks rs ≠ [] ∧ ∀ b ∈ identicalChecks rs, b = true) := by
  unfold mkSummary
  by_cases hc : (identicalChecks rs).isEmpty
  · have : identicalChecks rs = [] := by simpa [List.isEmpty_iff] using hc
    simp [hc, this]
  · have hne : identicalChecks rs ≠ [] := by
      simpa [List.isEmpty_iff] using hc
    simp [hc, hne, List.all_eq_true]

lemma summary_has_errors_iff (rs : List AnyResult) :
    (mkSummary rs).has_errors = true ↔ ∃ r ∈ rs, r.errorKey ≠ none := by
  unfold mkSummary
  simp [List.any_eq_true]

/-- C6: over existing files, `overall_identical` holds exactly when at least
one non-failed result carries an `identical` flag and no non-failed result
carries `identical = false` (the logical AND over the collected set, false
when that set is empty); `has_errors` holds exactly when some method result
failed, regardless of `overall_identical`. -/
theorem C6_aggregation_rule (be : Backend) (caps : Caps)
    (methodsOpt : Option (List MethodName))
    (h1 : be.exists1 = true) (h2 : be.exists2 = true) :
    ∃ rep, comprehensive_compare be caps methodsOpt =
        ComprehensiveResult.report rep ∧
      (rep.summary.overall_identical = true ↔
        ((∃ r ∈ rep.results, r.errorKey = none ∧ r.identicalKey ≠ none) ∧
          ∀ r ∈ rep.results, r.errorKey = none → r.identicalKey ≠ some false)) ∧
      (rep.summary.has_errors = true ↔
        ∃ r ∈ rep.results, r.errorKey ≠ none) := by
  unfold comprehensive_compare
  rw [h1, h2]
  simp only [not_true, if_false, Bool.not_true]
  refine ⟨_, rfl, ?_, summary_has_errors_iff _⟩
  rw [summary_overall_iff]
  constructor
  · rintro ⟨hne, hall⟩
    refine ⟨(identicalChecks_ne_nil _).mp hne, ?_⟩
    intro r hr he hk
    have : false ∈ identicalChecks _ := (mem_identicalChecks _ _).mpr ⟨r, hr, he, hk⟩
    exact absurd (hall false this) (by simp)
  · rintro ⟨hex, hall⟩
    refine ⟨(identicalChecks_ne_nil _).mpr hex, ?_⟩
    intro b hb
    obtain ⟨r, hr, he, hk⟩ := (mem_identicalChecks _ _).mp hb
    cases b with
    | false => exact absurd hk (hall r hr he)
    | true => rfl

/-- Witness for C6 at a concrete comparison. -/
theorem C6_aggregation_rule_witness :
    ∃ rep, comprehensive_compare
        ⟨true, true, [], [], [], [], 1, 1, [['x']], [['x']], [], [],
          (fun i _ => i), [], [], [], [], [], []⟩
        ⟨true, true, true, true⟩ (some [MethodName.text_comparison]) =
        ComprehensiveResult.report rep ∧
      (rep.summary.overall_identical = true ↔
        ((∃ r ∈ rep.results, r.errorKey = none ∧ r.identicalKey ≠ none) ∧
          ∀ r ∈ rep.results, r.errorKey = none → r.identicalKey ≠ some false)) ∧
      (rep.summary.has_errors = true ↔
        ∃ r ∈ rep.results, r.errorKey ≠ none) :=
  C6_aggregation_rule _ _ _ rfl rfl

lemma identicalChecks_length (rs : List AnyResult) :
    (identicalChecks rs).length =
      (rs.filter (fun r => r.errorKey.isNone && r.identicalKey.isSome)).length := by
  induction rs with
  | nil => rfl
  | cons r rs ih =>
      simp only [identicalChecks, List.filterMap_cons, List.filter_cons] at *
      cases he : r.errorKey <;> cases hk : r.identicalKey <;>
        simp [he, hk, ih]

/-- C7 (amended): `checks_passed ≤ checks_total` always, and `checks_total`
equals the number of method results that did not fail *and* carry a
top-level `identical` flag (the successful `basic_info` result carries none,
so it is never counted). -/
theorem C7_checks_accounting (be : Backend) (caps : Caps)
    (methodsOpt : Option (List MethodName))
    (h1 : be.exists1 = true) (h2 : be.exists2 = true) :
    ∃ rep, comprehensive_compare be caps methodsOpt =
        ComprehensiveResult.report rep ∧
      rep.summary.checks_passed ≤ rep.summary.checks_total ∧
      rep.summary.checks_total =
        (rep.results.filter
          (fun r => r.errorKey.isNone && r.identicalKey.isSome)).length := by
  unfold comprehensive_compare
  rw [h1, h2]
  simp only [not_true, if_false, Bool.not_true]
  refine ⟨_, rfl, ?_, identicalChecks_length _⟩
  unfold mkSummary
  by_cases hc : (identicalChecks (comprehensiveResults be caps
      (methodsOpt.getD (defaultMethods caps)))).isEmpty
  · simp [hc]
  · simp only [hc, if_true, if_false, Bool.false_eq_true, not_false_iff]
    exact List.length_filter_le _ _

/-- Witness for C7 (amended) at a concrete comparison. -/
theorem C7_checks_accounting_witness :
    ∃ rep, comprehensive_compare
        ⟨true, true, [], [], [], [], 1, 1, [['x']], [['x']], [], [],
          (fun i _ => i), [], [], [], [], [], []⟩
        ⟨true, true, true, true⟩ (some [MethodName.text_comparison]) =
        ComprehensiveResult.report rep ∧
      rep.summary.checks_passed ≤ rep.summary.checks_total ∧
      rep.summary.checks_total =
        (rep.results.filter
          (fun r => r.errorKey.isNone && r.identicalKey.isSome)).length :=
  C7_checks_accounting _ _ _ rfl rfl

/-- The `summary` of a comprehensive result, when it is a report. -/
def summaryOf : ComprehensiveResult → Option Summary
  | ComprehensiveResult.topError _ => none
  | ComprehensiveResult.report r => some r.summary

/-- The stored per-method results of a comprehensive result. -/
def resultsOf : ComprehensiveResult → List AnyResult
  | ComprehensiveResult.topError _ => []
  | ComprehensiveResult.report r => r.results

/-- A concrete backend: two existing, byte-identical one-page files. -/
def cexBackend : Backend :=
  ⟨true, true, [], [], [], [], 1, 1, [['x']], [['x']], [], [],
    (fun i _ => i), [], [], [], [], [], []⟩

/-- All four capabilities available. -/
def allCaps : Caps := ⟨true, true, true, true⟩

/-- C7 (counterexample): selecting only the text method runs two methods
(`basic_info` plus text), none fails, yet `checks_total = 1 ≠ 2 - 0`,
because the successful `basic_info` result carries no `identical` flag. -/
theorem C7_counterexample :
    (summaryOf (comprehensive_compare cexBackend allCaps
        (some [MethodName.text_comparison]))).map (fun s => s.checks_total) =
      some 1 ∧
    (resultsOf (comprehensive_compare cexBackend allCaps
        (some [MethodName.text_comparison]))).length = 2 ∧
    ((resultsOf (comprehensive_compare cexBackend allCaps
        (some [MethodName.text_comparison]))).filter
      (fun r => r.errorKey.isSome)).length = 0 ∧
    (summaryOf (comprehensive_compare cexBackend allCaps
        (some [MethodName.text_comparison]))).map (fun s => s.checks_total) ≠
      some ((resultsOf (comprehensive_compare cexBackend allCaps
          (some [MethodName.text_comparison]))).length -
        ((resultsOf (comprehensive_compare cexBackend allCaps
            (some [MethodName.text_comparison]))).filter
          (fun r => r.errorKey.isSome)).length) := by
  refine ⟨rfl, rfl, rfl, ?_⟩
  intro h
  simp only [summaryOf, resultsOf] at h
  revert h
  decide

/-- C10: the successful `basic_info` result carries no top-level `identical`
flag, so it never enters the collected identical set; consequently, when no
selectable method runs, `checks_total = 0` and `overall_identical = false`
even for byte-identical files. -/
theorem C10_basic_info_not_collected (be : Backend) (caps : Caps)
    (h1 : be.exists1 = true) (h2 : be.exists2 = true) :
    (∀ (hasP : Bool) (s1 s2 p1 p2 : ℕ),
      (AnyResult.basic (compare_basic_info hasP s1 s2 p1 p2)).identicalKey =
        none) ∧
    ∃ rep, comprehensive_compare be caps (some []) =
        ComprehensiveResult.report rep ∧
      rep.summary.checks_total = 0 ∧
      rep.summary.overall_identical = false := by
  refine ⟨fun _ _ _ _ _ => rfl, ?_⟩
  unfold comprehensive_compare
  rw [h1, h2]
  simp only [not_true, if_false, Bool.not_true]
  refine ⟨_, rfl, ?_, ?_⟩ <;>
    simp [comprehensiveResults, identicalChecks, mkSummary, AnyResult.errorKey,
      AnyResult.identicalKey]

/-- Witness for C10 at a concrete comparison of byte-identical files. -/
theorem C10_basic_info_not_collected_witness :
    (∀ (hasP : Bool) (s1 s2 p1 p2 : ℕ),
      (AnyResult.basic (compare_basic_info hasP s1 s2 p1 p2)).identicalKey =
        none) ∧
    ∃ rep, comprehensive_compare cexBackend allCaps (some []) =
        ComprehensiveResult.report rep ∧
      rep.summary.checks_total = 0 ∧
      rep.summary.overall_identical = false :=
  C10_basic_info_not_collected cexBackend allCaps rfl rfl

/-- C8: each comparator with its capability flag false returns the fixed
"unavailable" error dict (文本比较功能不可用 / 视觉比较不可用 / 结构分析不可用 /
元数据比较不可用, each naming the missing backend), for every possible backend
input — i.e. without consulting the backend at all. -/
theorem C8_capability_gates :
    (∀ (pages1 pages2 : List (List Char)) (name1 name2 : List Char)
        (detailed : Bool),
      compare_text false pages1 pages2 name1 name2 detailed =
        TextResult.error textUnavailableMsg) ∧
    (∀ (resize : Image → ℕ × ℕ → Image) (images1 images2 : List Image),
      compare_visual false resize images1 images2 =
        VisualResult.error visualUnavailableMsg) ∧
    (∀ (tables1 tables2 : List ℕ),
      compare_structure false tables1 tables2 =
        StructureResult.error structureUnavailableMsg) ∧
    (∀ (meta1 meta2 : List (List Char × List Char)) (hash1 hash2 : List Char),
      compare_metadata false meta1 meta2 hash1 hash2 =
        MetadataResult.error metadataUnavailableMsg) :=
  ⟨fun _ _ _ _ _ => rfl, fun _ _ _ => rfl, fun _ _ => rfl, fun _ _ _ _ => rfl⟩

lemma mem_filter_ne_visual (m : MethodName) (methods : List MethodName)
    (h : m ≠ MethodName.visual_comparison) :
    (m ∈ methods.filter (fun x => x ≠ MethodName.visual_comparison)) ↔
      m ∈ methods := by
  simp [List.mem_filter, h]

lemma not_mem_filter_visual (methods : List MethodName) :
    MethodName.visual_comparison ∉
      methods.filter (fun x => x ≠ MethodName.visual_comparison) := by
  simp [List.mem_filter]

/-- C9: with the visual capability available but differing rendered page
counts, `compare_visual` returns the page-count-mismatch failure whose error
message names both counts (not a generic error), for every pixel content —
no pixel comparison happens; the aggregator counts it into `has_errors` and
its `identical: False` never reaches the collected identical set, so every
collected quantity equals that of a run without the visual method. -/
theorem C9_visual_page_count_mismatch (be : Backend) (caps : Caps)
    (methods : List MethodName)
    (h1 : be.exists1 = true) (h2 : be.exists2 = true)
    (hcap : caps.visual_comparison = true)
    (hlen : be.images1.length ≠ be.images2.length)
    (hmem : MethodName.visual_comparison ∈ methods) :
    compare_visual caps.visual_comparison be.resize be.images1 be.images2 =
      VisualResult.pageCountMismatch be.images1.length be.images2.length ∧
    (AnyResult.visual (compare_visual caps.visual_comparison be.resize
        be.images1 be.images2)).errorKey =
      some (pageCountMismatchMsg be.images1.length be.images2.length) ∧
    ∃ rep, comprehensive_compare be caps (some methods) =
        ComprehensiveResult.report rep ∧
      rep.summary.has_errors = true ∧
      identicalChecks rep.results =
        identicalChecks (comprehensiveResults be caps
          (methods.filter (fun m => m ≠ MethodName.visual_comparison))) ∧
      rep.summary.overall_identical =
        (mkSummary (comprehensiveResults be caps
          (methods.filter
            (fun m => m ≠ MethodName.visual_comparison)))).overall_identical ∧
      rep.summary.checks_passed =
        (mkSummary (comprehensiveResults be caps
          (methods.filter
            (fun m => m ≠ MethodName.visual_comparison)))).checks_passed ∧
      rep.summary.checks_total =
        (mkSummary (comprehensiveResults be caps
          (methods.filter
            (fun m => m ≠ MethodName.visual_comparison)))).checks_total := by
  have hvis : compare_visual caps.visual_comparison be.resize
      be.images1 be.images2 =
      VisualResult.pageCountMismatch be.images1.length be.images2.length := by
    unfold compare_visual
    rw [hcap]
    simp only [not_true, if_false, Bool.not_true]
    rw [if_pos hlen]
  refine ⟨hvis, by rw [hvis]; rfl, ?_⟩
  unfold comprehensive_compare
  rw [h1, h2]
  simp only [not_true, if_false, Bool.not_true]
  have hchecks : identicalChecks (comprehensiveResults be caps methods) =
      identicalChecks (comprehensiveResults be caps
        (methods.filter (fun m => m ≠ MethodName.visual_comparison))) := by
    unfold comprehensiveResults identicalChecks
    rw [if_pos hmem, if_neg (not_mem_filter_visual methods)]
    rw [if_congr (mem_filter_ne_visual MethodName.text_comparison methods
      (by simp)).symm rfl rfl]
    rw [if_congr (mem_filter_ne_visual MethodName.structure_analysis methods
      (by simp)).symm rfl rfl]
    rw [if_congr (mem_filter_ne_visual MethodName.metadata_comparison methods
      (by simp)).symm rfl rfl]
    simp only [List.filterMap_append]
    congr 2
    rw [hvis]
    rfl
  have hmemres : AnyResult.visual (VisualResult.pageCountMismatch
      be.images1.length be.images2.length) ∈
      comprehensiveResults be caps methods := by
    unfold comprehensiveResults
    rw [if_pos hmem, hvis]
    simp
  have hsum1 : (mkSummary (comprehensiveResults be caps methods)).overall_identical =
      (mkSummary (comprehensiveResults be caps
        (methods.filter (fun m => m ≠ MethodName.visual_comparison)))).overall_identical := by
    simp only [mkSummary, hchecks]
  have hsum2 : (mkSummary (comprehensiveResults be caps methods)).checks_passed =
      (mkSummary (comprehensiveResults be caps
        (methods.filter (fun m => m ≠ MethodName.visual_comparison)))).checks_passed := by
    simp only [mkSummary, hchecks]
  have hsum3 : (mkSummary (comprehensiveResults be caps methods)).checks_total =
      (mkSummary (comprehensiveResults be caps
        (methods.filter (fun m => m ≠ MethodName.visual_comparison)))).checks_total := by
    simp only [mkSummary, hchecks]
  refine ⟨_, rfl, ?_, hchecks, hsum1, hsum2, hsum3⟩
  rw [summary_has_errors_iff]
  exact ⟨_, hmemres, by simp [AnyResult.errorKey]⟩

/-- Witness for C9 at a concrete comparison with 1 vs 2 rendered pages. -/
theorem C9_visual_page_count_mismatch_witness :
    compare_visual allCaps.visual_comparison
      (fun i _ => i) [⟨1, 1, [0]⟩] [⟨1, 1, [0]⟩, ⟨1, 1, [1]⟩] =
      VisualResult.pageCountMismatch 1 2 := by
  have h := C9_visual_page_count_mismatch
    { cexBackend with
        images1 := [⟨1, 1, [0]⟩], images2 := [⟨1, 1, [0]⟩, ⟨1, 1, [1]⟩],
        resize := fun i _ => i }
    allCaps [MethodName.visual_comparison] rfl rfl rfl (by decide) (by decide)
  exact h.1

/-! ## The `A\nB\nC` vs `A\nX\nC` scenario (claim C2) -/

/-- C2 (counterexample): on document A = `["A\nB\nC"]`, B = `["A\nX\nC"]`,
the two entries are produced with `line_in_page = 1`, not 2 — the callers
pass the 0-based global cursor to `_find_page_for_line`, so the reported
in-page number is one less than the 1-based line position in the page (the
1-based *global* `line` field is 2). -/
theorem C2_counterexample :
    ((compare_text_ok [("A\nB\nC").data] [("A\nX\nC").data] [] []
        true).detailed_differences.getD []).map
      (fun e => (e.type, e.content, e.page, e.line_in_page)) =
      [(EntryType.removed, ['B'], (1 : ℤ), (1 : ℤ)),
       (EntryType.added, ['X'], (1 : ℤ), (1 : ℤ))] ∧
    ((1 : ℤ) ≠ 2) := by
  exact ⟨by decide, by decide⟩

/-- C2 (amended): the scenario produces exactly one Removed entry
(content "B") and one Added entry (content "X"), both on page 1 with
`line_in_page = 1` (their 1-based global line is 2); the similarity is
`4/5`, strictly between 0 and 1, and `identical = false`. -/
theorem C2_scenario :
    (compare_text_ok [("A\nB\nC").data] [("A\nX\nC").data] [] []
      true).identical = false ∧
    (compare_text_ok [("A\nB\nC").data] [("A\nX\nC").data] [] []
      true).detailed_differences =
      some
        [⟨EntryType.removed, ['B'], 1, 2, 1, SideFile.pdf1, [['A']], [['C']]⟩,
         ⟨EntryType.added, ['X'], 1, 2, 1, SideFile.pdf2, [['A']], [['C']]⟩] ∧
    (compare_text_ok [("A\nB\nC").data] [("A\nX\nC").data] [] []
      true).similarity = 4 / 5 ∧
    0 < (compare_text_ok [("A\nB\nC").data] [("A\nX\nC").data] [] []
      true).similarity ∧
    (compare_text_ok [("A\nB\nC").data] [("A\nX\nC").data] [] []
      true).similarity < 1 := by
  have hsim : (compare_text_ok [("A\nB\nC").data] [("A\nX\nC").data] [] []
      true).similarity = calculate_ratio 4 10 := by
    show sm_ratio (joinPages [("A\nB\nC").data]) (joinPages [("A\nX\nC").data]) =
      calculate_ratio 4 10
    unfold sm_ratio
    congr 1
    all_goals decide
  refine ⟨by decide, by decide, ?_, ?_, ?_⟩ <;>
    rw [hsim] <;> norm_num [calculate_ratio]

/-! ## Entry/page-resolution invariant (claim C4) -/

/-- C4 (counterexample): for documents `["a\n", "b\n", "c"]` vs
`["a\n", "b\n", "d"]` the joined text has 5 lines but the per-page spans sum
to 3, so both entries take the fallback `(last page, 0)`: the Removed entry
has page 3 and 1-based global line 5 (0-based 4), yet the spans up to and
including page 3 sum to 3 < 4 — the claimed invariant fails. -/
theorem C4_counterexample :
    ((compare_text_ok [("a\n").data, ("b\n").data, ['c']]
        [("a\n").data, ("b\n").data, ['d']] [] []
        true).detailed_differences.getD []).map
      (fun e => (e.type, e.content, e.page, e.line, e.line_in_page)) =
      [(EntryType.removed, ['c'], (3 : ℤ), (5 : ℤ), (0 : ℤ)),
       (EntryType.added, ['d'], (3 : ℤ), (5 : ℤ), (0 : ℤ))] ∧
    cumSpan [("a\n").data, ("b\n").data, ['c']] 3 = 3 ∧
    ¬ ((5 : ℤ) - 1 ≤ (3 : ℤ)) :=
  ⟨by decide, by decide, by decide⟩

lemma extractGo_entries (lines1 lines2 pages1 pages2 : List (List Char)) :
    ∀ (ds : List (List Char)) (cl1 cl2 : ℤ) (e : DiffEntry),
      e ∈ extractGo lines1 lines2 pages1 pages2 ds cl1 cl2 →
      (e.file = SideFile.pdf1 →
        (e.page, e.line_in_page) = find_page_for_line (e.line - 1) pages1) ∧
      (e.file = SideFile.pdf2 →
        (e.page, e.line_in_page) = find_page_for_line (e.line - 1) pages2) := by
  intro ds
  induction ds with
  | nil =>
      intro cl1 cl2 e he
      cases he
  | cons line rest ih =>
      intro cl1 cl2 e he
      rw [extractGo] at he
      by_cases h1 : ("@@".data).isPrefixOf line
      · rw [if_pos h1] at he
        rcases hp : parseHunkHeader line with _ | ⟨n1, n2⟩ <;> rw [hp] at he
        · exact ih _ _ _ he
        · exact ih _ _ _ he
      · rw [if_neg h1] at he
        by_cases h2 : (("---".data).isPrefixOf line ||
            ("+++".data).isPrefixOf line) = true
        · rw [if_pos h2] at he
          exact ih _ _ _ he
        · rw [if_neg h2] at he
          by_cases h3 : ("-".data).isPrefixOf line
          · rw [if_pos h3] at he
            rcases List.mem_cons.mp he with he | he
            · subst he
              refine ⟨fun _ => ?_, fun hf => by simp at hf⟩
              have hl : cl1 + 1 - 1 = cl1 := by ring
              simp only [hl]
            · exact ih _ _ _ he
          · rw [if_neg h3] at he
            by_cases h4 : ("+".data).isPrefixOf line
            · rw [if_pos h4] at he
              rcases List.mem_cons.mp he with he | he
              · subst he
                refine ⟨fun hf => by simp at hf, fun _ => ?_⟩
                have hl : cl2 + 1 - 1 = cl2 := by ring
                simp only [hl]
              · exact ih _ _ _ he
            · rw [if_neg h4] at he
              exact ih _ _ _ he

lemma cumSpan_zero_cast (pages : List (List Char)) :
    ((cumSpan pages 0 : ℕ) : ℤ) = 0 := by
  unfold cumSpan
  simp

lemma find_page_nonneg (ln : ℤ) (pages : List (List Char)) (h0 : 0 ≤ ln)
    (htot : ln ≤ (cumSpan pages pages.length : ℤ)) :
    0 ≤ (find_page_for_line ln pages).2 ∧
    ln ≤ (cumSpan pages (find_page_for_line ln pages).1.toNat : ℤ) := by
  by_cases hne : pages = []
  · subst hne
    have h1 : ((cumSpan ([] : List (List Char)) 0 : ℕ) : ℤ) = 0 :=
      cumSpan_zero_cast []
    simp only [List.length_nil] at htot
    have : ln = 0 := by omega
    subst this
    exact ⟨le_rfl, by simpa using htot⟩
  · obtain ⟨p, hp1, hp2, hp3, hp4, hp5⟩ :=
      findPageLoop_found ln pages hne pages 0 (by simp) htot
        (fun q h1 hq => by omega)
    have hres : find_page_for_line ln pages =
        ((p : ℤ), ln - (cumSpan pages (p - 1) : ℤ)) := by
      unfold find_page_for_line
      rw [← hp3, cumSpan_zero_cast]
    rw [hres]
    refine ⟨?_, ?_⟩
    · simp only
      rcases Nat.eq_or_lt_of_le hp1 with h | h
      · have : p = 1 := by omega
        subst this
        have := cumSpan_zero_cast pages
        simp only [Nat.sub_self]
        omega
      · have := hp5 (p - 1) (by omega) (by omega)
        omega
    · simp only [Int.toNat_natCast]
      exact hp4

lemma find_page_fallback_eq (ln : ℤ) (pages : List (List Char))
    (h : (cumSpan pages pages.length : ℤ) < ln) :
    find_page_for_line ln pages = ((pages.length : ℤ), 0) := by
  unfold find_page_for_line
  rw [← findPageLoop_fallback ln pages h pages 0 (by simp), cumSpan_zero_cast]

lemma mem_detailed_differences {pages1 pages2 : List (List Char)}
    {name1 name2 : List Char} {detailed : Bool} {e : DiffEntry}
    (he : e ∈ (compare_text_ok pages1 pages2 name1 name2
      detailed).detailed_differences.getD []) :
    e ∈ extract_detailed_positions
      (unified_diff (splitlines (joinPages pages1))
        (splitlines (joinPages pages2)) name1 name2)
      (splitlines (joinPages pages1)) (splitlines (joinPages pages2))
      pages1 pages2 := by
  simp only [compare_text_ok] at he
  split at he
  · simpa using he
  · simp at he

/-- C4 (amended): every detailed-diff entry records exactly the resolution of
its own 0-based global line number (`line - 1`) against its side's page
table: while that number is within the total span, `line_in_page ≥ 0` and
the cumulative span up to and including the resolved page reaches it; once it
exceeds the total span (which happens when pages end in newline characters,
since `'\n'.join` then yields more lines than the per-page spans sum to), the
entry carries the documented fallback `(last page, 0)` — and there the
claimed sum inequality genuinely fails, cf. the counterexample. -/
theorem C4_entry_resolution (pages1 pages2 : List (List Char))
    (name1 name2 : List Char) (e : DiffEntry)
    (he : e ∈ (compare_text_ok pages1 pages2 name1 name2
      true).detailed_differences.getD []) :
    (e.file = SideFile.pdf1 →
      (0 ≤ e.line - 1 → e.line - 1 ≤ (cumSpan pages1 pages1.length : ℤ) →
        0 ≤ e.line_in_page ∧
        e.line - 1 ≤ (cumSpan pages1 e.page.toNat : ℤ)) ∧
      ((cumSpan pages1 pages1.length : ℤ) < e.line - 1 →
        e.page = (pages1.length : ℤ) ∧ e.line_in_page = 0)) ∧
    (e.file = SideFile.pdf2 →
      (0 ≤ e.line - 1 → e.line - 1 ≤ (cumSpan pages2 pages2.length : ℤ) →
        0 ≤ e.line_in_page ∧
        e.line - 1 ≤ (cumSpan pages2 e.page.toNat : ℤ)) ∧
      ((cumSpan pages2 pages2.length : ℤ) < e.line - 1 →
        e.page = (pages2.length : ℤ) ∧ e.line_in_page = 0)) := by
  have he' := mem_detailed_differences he
  have hinv := extractGo_entries (splitlines (joinPages pages1))
    (splitlines (joinPages pages2)) pages1 pages2 _ 0 0 e he'
  constructor
  · intro hf
    have heq := hinv.1 hf
    constructor
    · intro hge hle
      have h := find_page_nonneg (e.line - 1) pages1 hge hle
      rw [← heq] at h
      exact h
    · intro hgt
      have h := find_page_fallback_eq (e.line - 1) pages1 hgt
      rw [h] at heq
      exact ⟨congrArg Prod.fst heq, congrArg Prod.snd heq⟩
  · intro hf
    have heq := hinv.2 hf
    constructor
    · intro hge hle
      have h := find_page_nonneg (e.line - 1) pages2 hge hle
      rw [← heq] at h
      exact h
    · intro hgt
      have h := find_page_fallback_eq (e.line - 1) pages2 hgt
      rw [h] at heq
      exact ⟨congrArg Prod.fst heq, congrArg Prod.snd heq⟩

/-- Concrete entry for the C4 witness: the Removed entry of the
`A\nB\nC` / `A\nX\nC` comparison. -/
def c4WitnessEntry : DiffEntry :=
  ⟨EntryType.removed, ['B'], 1, 2, 1, SideFile.pdf1, [['A']], [['C']]⟩

def c4WitnessPages1 : List (List Char) := [("A\nB\nC").data]

def c4WitnessPages2 : List (List Char) := [("A\nX\nC").data]

/-- Witness for C4 (amended) at the concrete scenario entry. -/
theorem C4_entry_resolution_witness :
    c4WitnessEntry ∈ (compare_text_ok c4WitnessPages1 c4WitnessPages2 [] []
      true).detailed_differences.getD [] ∧
    ((c4WitnessEntry.file = SideFile.pdf1 →
      (0 ≤ c4WitnessEntry.line - 1 →
        c4WitnessEntry.line - 1 ≤
          (cumSpan c4WitnessPages1 c4WitnessPages1.length : ℤ) →
        0 ≤ c4WitnessEntry.line_in_page ∧
        c4WitnessEntry.line - 1 ≤
          (cumSpan c4WitnessPages1 c4WitnessEntry.page.toNat : ℤ)) ∧
      ((cumSpan c4WitnessPages1 c4WitnessPages1.length : ℤ) <
          c4WitnessEntry.line - 1 →
        c4WitnessEntry.page = (c4WitnessPages1.length : ℤ) ∧
        c4WitnessEntry.line_in_page = 0)) ∧
    (c4WitnessEntry.file = SideFile.pdf2 →
      (0 ≤ c4WitnessEntry.line - 1 →
        c4WitnessEntry.line - 1 ≤
          (cumSpan c4WitnessPages2 c4WitnessPages2.length : ℤ) →
        0 ≤ c4WitnessEntry.line_in_page ∧
        c4WitnessEntry.line - 1 ≤
          (cumSpan c4WitnessPages2 c4WitnessEntry.page.toNat : ℤ)) ∧
      ((cumSpan c4WitnessPages2 c4WitnessPages2.length : ℤ) <
          c4WitnessEntry.line - 1 →
        c4WitnessEntry.page = (c4WitnessPages2.length : ℤ) ∧
        c4WitnessEntry.line_in_page = 0))) :=
  ⟨by decide,
    C4_entry_resolution c4WitnessPages1 c4WitnessPages2 [] [] c4WitnessEntry
      (by decide)⟩

/-! ## Swapping the two sides (claim C5) -/

/-- C5 (counterexample): for documents `["x\ny"]` vs `["y\nx"]` the diff
emits `Added "y"`, `Removed "y"`; with the sides swapped it emits
`Added "x"`, `Removed "x"` — the contents are not preserved (the matcher's
longest-match tie-breaking anchors on the first maximal match in `a`, which
is not a symmetric choice), so the swapped run is *not* the original entry
set with `Added`/`Removed` exchanged. -/
theorem C5_counterexample :
    ((compare_text_ok [("x\ny").data] [("y\nx").data] [] []
        true).detailed_differences.getD []).map
      (fun e => (e.type, e.content)) =
      [(EntryType.added, ['y']), (EntryType.removed, ['y'])] ∧
    ((compare_text_ok [("y\nx").data] [("x\ny").data] [] []
        true).detailed_differences.getD []).map
      (fun e => (e.type, e.content)) =
      [(EntryType.added, ['x']), (EntryType.removed, ['x'])] ∧
    (['y'] : List Char) ≠ ['x'] :=
  ⟨by decide, by decide, by decide⟩

/-- C5 (amended): swapping the two documents preserves the `identical` flag
and exchanges the two sides' character and line counts in the statistics;
the set of diff entries with `Added`/`Removed` exchanged and contents
preserved is *not* guaranteed (see the counterexample). -/
theorem C5_swap_statistics (pages1 pages2 : List (List Char))
    (name1 name2 : List Char) (detailed : Bool) :
    (compare_text_ok pages2 pages1 name2 name1 detailed).identical =
      (compare_text_ok pages1 pages2 name1 name2 detailed).identical ∧
    (compare_text_ok pages2 pages1 name2 name1
        detailed).statistics.char_count1 =
      (compare_text_ok pages1 pages2 name1 name2
        detailed).statistics.char_count2 ∧
    (compare_text_ok pages2 pages1 name2 name1
        detailed).statistics.char_count2 =
      (compare_text_ok pages1 pages2 name1 name2
        detailed).statistics.char_count1 ∧
    (compare_text_ok pages2 pages1 name2 name1
        detailed).statistics.line_count1 =
      (compare_text_ok pages1 pages2 name1 name2
        detailed).statistics.line_count2 ∧
    (compare_text_ok pages2 pages1 name2 name1
        detailed).statistics.line_count2 =
      (compare_text_ok pages1 pages2 name1 name2
        detailed).statistics.line_count1 := by
  refine ⟨?_, rfl, rfl, rfl, rfl⟩
  show decide (joinPages pages2 = joinPages pages1) =
    decide (joinPages pages1 = joinPages pages2)
  exact decide_eq_decide.mpr eq_comm

/-! ## The matcher on two equal sequences (towards claim C1)

On `a = b` the main loop's best match is always diagonal (`besti = bestj`):
chains are bounded by the runs of autojunk-surviving positions, and the
diagonal chain attains that bound first, so no off-diagonal chain ever
strictly exceeds the current best.  The extension loops then grow a diagonal
match to the whole sequence. -/

/-- Does position `p` survive autojunk pruning (nonempty `b2j` list)? -/
def survivesB (a : List α) (b2jf : α → List ℕ) (p : ℕ) : Bool :=
  match a.get? p with
  | some c => !(b2jf c).isEmpty
  | none => false

/-- Length of the maximal run of surviving positions ending at `p`: the
value the diagonal chain attains at row `p` of the main loop on `a = a`. -/
def runLen (a : List α) (b2jf : α → List ℕ) : ℕ → ℕ
  | 0 => if survivesB a b2jf 0 then 1 else 0
  | p + 1 => if survivesB a b2jf (p + 1) then runLen a b2jf p + 1 else 0

lemma runLen_eq_zero {a : List α} {b2jf : α → List ℕ} {p : ℕ}
    (h : survivesB a b2jf p = false) : runLen a b2jf p = 0 := by
  cases p <;> simp [runLen, h]

lemma runLen_succ_form {a : List α} {b2jf : α → List ℕ} {p : ℕ}
    (h : survivesB a b2jf p = true) :
    runLen a b2jf p = (if p = 0 then 0 else runLen a b2jf (p - 1)) + 1 := by
  cases p <;> simp [runLen, h]

lemma seqB2j_mem {b : List α} {c : α} {j : ℕ} (h : j ∈ seqB2j b c) :
    b.get? j = some c := by
  simp only [seqB2j] at h
  split at h
  · cases h
  · unfold occList at h
    have := (List.mem_filter.mp h).2
    exact of_decide_eq_true this

lemma seqB2j_complete {b : List α} {p : ℕ} {c : α} (h : b.get? p = some c)
    (hne : seqB2j b c ≠ []) : p ∈ seqB2j b c := by
  simp only [seqB2j] at hne ⊢
  split at hne
  · exact absurd rfl hne
  · next hcond =>
      rw [if_neg hcond]
      unfold occList
      rw [List.mem_filter]
      refine ⟨List.mem_range.mpr ?_, decide_eq_true h⟩
      exact (List.get?_eq_some.mp h).1

lemma seqB2j_sorted (b : List α) (c : α) :
    (seqB2j b c).Pairwise (· < ·) := by
  simp only [seqB2j]
  split
  · exact List.Pairwise.nil
  · exact (List.pairwise_lt_range _).filter _

lemma eqAt_self (a : List α) {p : ℕ} (h : p < a.length) :
    eqAt a a p p = true := by
  unfold eqAt
  rw [List.get?_eq_get h]
  simp

lemma flmInner_diag {a : List α} {b2jf : α → List ℕ}
    (H1 : ∀ (c : α) (j : ℕ), j ∈ b2jf c → a.get? j = some c)
    {n : ℕ} (hn : n = a.length) (i : ℕ)
    {c : α} (hc : a.get? i = some c) (hcne : b2jf c ≠ [])
    (prev : ℕ → ℕ)
    (Hp1 : ∀ j, prev j ≤ runLen a b2jf j)
    (HpU : ∀ j, prev j ≤ (if i = 0 then 0 else runLen a b2jf (i - 1)))
    (Hpx : i ≠ 0 → prev (i - 1) = runLen a b2jf (i - 1)) :
    ∀ (L : List ℕ) (newRow : ℕ → ℕ) (best : FlmBest),
      (∀ j, j ∈ L → j ∈ b2jf c) →
      L.Pairwise (· < ·) →
      (i ∈ L ∨ runLen a b2jf i ≤ best.bestsize) →
      best.besti = best.bestj →
      (∀ p, p < i → runLen a b2jf p ≤ best.bestsize) →
      (∀ j, newRow j ≤ runLen a b2jf j) →
      (∀ j, newRow j ≤ runLen a b2jf i) →
      (i ∈ L ∨ newRow i = runLen a b2jf i) →
      (∀ j, (flmInner i 0 n prev L newRow best).1 j ≤ runLen a b2jf j) ∧
      (∀ j, (flmInner i 0 n prev L newRow best).1 j ≤ runLen a b2jf i) ∧
      (flmInner i 0 n prev L newRow best).1 i = runLen a b2jf i ∧
      (flmInner i 0 n prev L newRow best).2.besti =
        (flmInner i 0 n prev L newRow best).2.bestj ∧
      (∀ p, p ≤ i →
        runLen a b2jf p ≤ (flmInner i 0 n prev L newRow best).2.bestsize) := by
  have hsurvi : survivesB a b2jf i = true := by
    unfold survivesB
    rw [hc]
    simpa [List.isEmpty_iff] using hcne
  have hRi : runLen a b2jf i = (if i = 0 then 0 else runLen a b2jf (i - 1)) + 1 :=
    runLen_succ_form hsurvi
  intro L
  induction L with
  | nil =>
      intro newRow best hmem hpw hcov hdiag hcover hr1 hr2 hrx
      refine ⟨hr1, hr2, ?_, hdiag, ?_⟩
      · rcases hrx with h | h
        · cases h
        · exact h
      · intro p hp
        rcases Nat.lt_or_ge p i with h | h
        · exact hcover p h
        · have : p = i := by omega
          subst this
          rcases hcov with h' | h'
          · cases h'
          · exact h'
  | cons j L ih =>
      intro newRow best hmem hpw hcov hdiag hcover hr1 hr2 hrx
      have hjb : j ∈ b2jf c := hmem j (List.mem_cons_self _ _)
      have hgj : a.get? j = some c := H1 c j hjb
      have hjn : j < n := by
        rw [hn]
        exact (List.get?_eq_some.mp hgj).1
      have hsurvj : survivesB a b2jf j = true := by
        unfold survivesB
        rw [hgj]
        simpa [List.isEmpty_iff] using hcne
      have hRj : runLen a b2jf j =
          (if j = 0 then 0 else runLen a b2jf (j - 1)) + 1 :=
        runLen_succ_form hsurvj
      have hkRj : (if j = 0 then 0 else prev (j - 1)) + 1 ≤ runLen a b2jf j := by
        have h1 := Hp1 (j - 1)
        rw [hRj]
        by_cases hj0 : j = 0
        · rw [if_pos hj0]
          omega
        · rw [if_neg hj0, if_neg hj0]
          omega
      have hkRi : (if j = 0 then 0 else prev (j - 1)) + 1 ≤ runLen a b2jf i := by
        have h1 := HpU (j - 1)
        rw [hRi]
        by_cases hj0 : j = 0
        · rw [if_pos hj0]
          omega
        · rw [if_neg hj0]
          by_cases hi0 : i = 0
          · rw [if_pos hi0] at h1 ⊢
            omega
          · rw [if_neg hi0] at h1 ⊢
            omega
      have hrow1 : ∀ x, (fun j' => if j' = j then
          (if j = 0 then 0 else prev (j - 1)) + 1 else newRow j') x ≤
          runLen a b2jf x := by
        intro x
        by_cases hx : x = j
        · subst hx
          simp only [if_pos rfl]
          exact hkRj
        · simp only [if_neg hx]
          exact hr1 x
      have hrow2 : ∀ x, (fun j' => if j' = j then
          (if j = 0 then 0 else prev (j - 1)) + 1 else newRow j') x ≤
          runLen a b2jf i := by
        intro x
        by_cases hx : x = j
        · subst hx
          simp only [if_pos rfl]
          exact hkRi
        · simp only [if_neg hx]
          exact hr2 x
      simp only [flmInner, if_neg (Nat.not_lt_zero j), if_neg (Nat.not_le.mpr hjn)]
      rcases lt_trichotomy j i with hji | hji | hji
      · -- j < i: k ≤ runLen j ≤ bestsize, so the best is unchanged
        have hnoup : ¬ best.bestsize < (if j = 0 then 0 else prev (j - 1)) + 1 := by
          have h1 := hcover j hji
          omega
        rw [if_neg hnoup]
        apply ih _ best (fun x hx => hmem x (List.mem_cons_of_mem _ hx)) (List.pairwise_cons.mp hpw).2
        · rcases hcov with h | h
          · rcases List.mem_cons.mp h with h' | h'
            · omega
            · exact Or.inl h'
          · exact Or.inr h
        · exact hdiag
        · exact hcover
        · exact hrow1
        · exact hrow2
        · rcases hrx with h | h
          · rcases List.mem_cons.mp h with h' | h'
            · omega
            · exact Or.inl h'
          · refine Or.inr ?_
            simp only [if_neg (by omega : ¬ i = j)]
            exact h
      · -- j = i: the diagonal entry with the exact value runLen i
        subst hji
        have hkexact : (if j = 0 then 0 else prev (j - 1)) + 1 =
            runLen a b2jf j := by
          rw [hRi]
          by_cases hj0 : j = 0
          · rw [if_pos hj0, if_pos hj0]
          · rw [if_neg hj0, if_neg hj0, Hpx hj0]
        have hrowx : (fun j' => if j' = j then
            (if j = 0 then 0 else prev (j - 1)) + 1 else newRow j') j =
            runLen a b2jf j := by
          simp only [if_pos rfl]
          exact hkexact
        by_cases hup : best.bestsize < (if j = 0 then 0 else prev (j - 1)) + 1
        · rw [if_pos hup]
          apply ih _ _ (fun x hx => hmem x (List.mem_cons_of_mem _ hx))
            (List.pairwise_cons.mp hpw).2
          · refine Or.inr ?_
            simp only
            omega
          · rfl
          · intro p hp
            simp only
            have := hcover p hp
            omega
          · exact hrow1
          · exact hrow2
          · exact Or.inr hrowx
        · rw [if_neg hup]
          apply ih _ best (fun x hx => hmem x (List.mem_cons_of_mem _ hx))
            (List.pairwise_cons.mp hpw).2
          · refine Or.inr ?_
            omega
          · exact hdiag
          · exact hcover
          · exact hrow1
          · exact hrow2
          · exact Or.inr hrowx
      · -- i < j: i is not in the list any more, so it is already covered
        have hiL : i ∉ j :: L := by
          intro h
          rcases List.mem_cons.mp h with h' | h'
          · omega
          · have := (List.pairwise_cons.mp hpw).1 i h'
            omega
        have hRicov : runLen a b2jf i ≤ best.bestsize := by
          rcases hcov with h | h
          · exact absurd h hiL
          · exact h
        have hnoup : ¬ best.bestsize < (if j = 0 then 0 else prev (j - 1)) + 1 := by
          omega
        rw [if_neg hnoup]
        apply ih _ best (fun x hx => hmem x (List.mem_cons_of_mem _ hx))
          (List.pairwise_cons.mp hpw).2
        · exact Or.inr hRicov
        · exact hdiag
        · exact hcover
        · exact hrow1
        · exact hrow2
        · rcases hrx with h | h
          · exact absurd h hiL
          · refine Or.inr ?_
            simp only [if_neg (by omega : ¬ i = j)]
            exact h

lemma flmRows_diag {a : List α} {b2jf : α → List ℕ}
    (H1 : ∀ (c : α) (j : ℕ), j ∈ b2jf c → a.get? j = some c)
    (H2 : ∀ (p : ℕ) (c : α), a.get? p = some c → b2jf c ≠ [] → p ∈ b2jf c)
    (H3 : ∀ c : α, (b2jf c).Pairwise (· < ·))
    {n : ℕ} (hn : n = a.length) :
    ∀ (cnt s : ℕ) (st : (ℕ → ℕ) × FlmBest), s + cnt = n →
      (∀ j, st.1 j ≤ runLen a b2jf j) →
      (∀ j, st.1 j ≤ (if s = 0 then 0 else runLen a b2jf (s - 1))) →
      (s ≠ 0 → st.1 (s - 1) = runLen a b2jf (s - 1)) →
      st.2.besti = st.2.bestj →
      (∀ p, p < s → runLen a b2jf p ≤ st.2.bestsize) →
      (flmRows a b2jf 0 n (List.range' s cnt) st).2.besti =
        (flmRows a b2jf 0 n (List.range' s cnt) st).2.bestj := by
  intro cnt
  induction cnt with
  | zero =>
      intro s st _ _ _ _ hdiag _
      exact hdiag
  | succ m ih =>
      intro s st hcnt h1 h2 h3 hdiag hcover
      rw [List.range'_succ, flmRows]
      have hsn : s < a.length := by omega
      obtain ⟨c, hc⟩ : ∃ c, a.get? s = some c := by
        rw [List.get?_eq_get hsn]
        exact ⟨_, rfl⟩
      simp only [hc]
      by_cases hempty : b2jf c = []
      · -- empty row: the fresh zero row replaces prev, best unchanged
        rw [hempty]
        have hR0 : runLen a b2jf s = 0 := by
          apply runLen_eq_zero
          unfold survivesB
          rw [hc]
          simp [hempty]
        apply ih (s + 1)
        · omega
        · intro j
          exact Nat.zero_le _
        · intro j
          simp only [Nat.add_sub_cancel, if_neg (Nat.succ_ne_zero s)]
          exact Nat.zero_le _
        · intro _
          simp only [Nat.add_sub_cancel, hR0]
          rfl
        · exact hdiag
        · intro p hp
          rcases Nat.lt_or_ge p s with h | h
          · exact hcover p h
          · have : p = s := by omega
            subst this
            rw [hR0]
            exact Nat.zero_le _
      · have hinner := flmInner_diag H1 hn s hc hempty st.1 h1 h2 h3
          (b2jf c) (fun _ => 0) st.2
          (fun x hx => hx) (H3 _)
          (Or.inl (H2 s _ hc hempty)) hdiag hcover
          (fun j => Nat.zero_le _) (fun j => Nat.zero_le _)
          (Or.inl (H2 s _ hc hempty))
        apply ih (s + 1)
        · omega
        · exact hinner.1
        · intro j
          simp only [Nat.add_sub_cancel, if_neg (Nat.succ_ne_zero s)]
          exact hinner.2.1 j
        · intro _
          simp only [Nat.add_sub_cancel]
          exact hinner.2.2.1
        · exact hinner.2.2.2.1
        · intro p hp
          exact hinner.2.2.2.2 p (by omega)

lemma extendBack_self (a : List α) :
    ∀ (bi bs : ℕ), bi ≤ a.length →
      extendBack a a 0 0 bi bi bs = (0, 0, bs + bi) := by
  intro bi
  induction bi with
  | zero =>
      intro bs _
      rfl
  | succ m ih =>
      intro bs hm
      rw [extendBack]
      rw [if_pos ⟨Nat.succ_pos m, Nat.succ_pos m, by
        simpa using eqAt_self a (p := m) (by omega)⟩]
      show extendBack a a 0 0 m m (bs + 1) = (0, 0, bs + (m + 1))
      rw [ih (bs + 1) (by omega)]
      refine congrArg _ (congrArg _ ?_)
      omega

lemma extendFwdGo_self (a : List α) :
    ∀ (fuel s : ℕ), s + fuel = a.length →
      extendFwdGo a a a.length a.length 0 0 fuel s = a.length := by
  intro fuel
  induction fuel with
  | zero =>
      intro s hs
      simpa [extendFwdGo] using hs
  | succ m ih =>
      intro s hs
      rw [extendFwdGo]
      rw [if_pos ⟨by omega, by omega, by
        simpa using eqAt_self a (p := s) (by omega)⟩]
      exact ih (s + 1) (by omega)

/-- On two equal sequences, `find_longest_match` over the full rectangle
returns the full match `(0, 0, len)`. -/
lemma flm_self (a : List α) (b2jf : α → List ℕ)
    (H1 : ∀ (c : α) (j : ℕ), j ∈ b2jf c → a.get? j = some c)
    (H2 : ∀ (p : ℕ) (c : α), a.get? p = some c → b2jf c ≠ [] → p ∈ b2jf c)
    (H3 : ∀ c : α, (b2jf c).Pairwise (· < ·)) :
    find_longest_match a a b2jf 0 a.length 0 a.length =
      (0, 0, a.length) := by
  unfold find_longest_match
  have hdiag := flmRows_diag H1 H2 H3 rfl a.length 0
    (fun _ => 0, ⟨0, 0, 0⟩) (by omega)
    (fun j => Nat.zero_le _) (fun j => by simp)
    (fun h => absurd rfl h) rfl (fun p hp => by omega)
  have hrange := @flmRows_range _ _ a b2jf 0 a.length 0 a.length
    a.length 0 (fun _ => 0, ⟨0, 0, 0⟩)
    (Nat.zero_le _) (by omega) (fun j h => absurd rfl h)
    ⟨le_rfl, le_rfl, fun _ => ⟨rfl, rfl⟩, fun h => absurd rfl h⟩
  rw [Nat.sub_zero]
  set st := flmRows a b2jf 0 a.length (List.range' 0 a.length)
    (fun _ => 0, ⟨0, 0, 0⟩) with hst
  obtain ⟨hb1, hb2, hb3, hb4⟩ := hrange
  have hbile : st.2.besti ≤ a.length := by
    by_cases hz : st.2.bestsize = 0
    · rw [(hb3 hz).1]
      exact Nat.zero_le _
    · have := hb4 hz
      omega
  have hback : extendBack a a 0 0 st.2.besti st.2.bestj st.2.bestsize =
      (0, 0, st.2.bestsize + st.2.besti) := by
    rw [← hdiag]
    exact extendBack_self a st.2.besti st.2.bestsize hbile
  have hle : st.2.bestsize + st.2.besti ≤ a.length := by
    by_cases hz : st.2.bestsize = 0
    · rw [hz, (hb3 hz).1]
      simp
    · have := hb4 hz
      omega
  have hfwd : extendFwd a a a.length a.length 0 0
      (st.2.bestsize + st.2.besti) = a.length := by
    unfold extendFwd
    rw [Nat.zero_add]
    exact extendFwdGo_self a _ _ (by omega)
  simp only [hback, hfwd]

/-- `find_longest_match` on two copies of `a`, with the autojunk-pruned
position table of `a` itself, returns the full match `(0, 0, len a)`:
positions of pruned (popular) elements break the diagonal chains, but every
surviving run is dominated by the diagonal chain, which the extension loops
then grow to the whole sequence. -/
lemma flm_self_seq (a : List α) :
    find_longest_match a a (seqB2j a) 0 a.length 0 a.length =
      (0, 0, a.length) :=
  flm_self a (seqB2j a) (fun _ _ h => seqB2j_mem h)
    (fun _ _ h hne => seqB2j_complete h hne) (fun c => seqB2j_sorted a c)

/-- The stack loop of `get_matching_blocks` on a full self-match: the single
initial range yields the one block `(0, 0, len a)` and pushes no subranges. -/
lemma gmbLoopGo_self (a : List α) (hlen : a.length ≠ 0) (fuel : ℕ) :
    gmbLoopGo a a (seqB2j a) (fuel + 1) [(0, a.length, 0, a.length)] [] =
      [(0, 0, a.length)] := by
  rw [gmbLoopGo]
  simp only [flm_self_seq a]
  rw [if_pos hlen]
  rw [if_neg (by omega), if_neg (by omega)]
  cases fuel <;> rfl

/-- `get_matching_blocks` on two copies of `a`: the full match followed by
the sentinel (the sentinel alone when `a` is empty). -/
lemma gmb_self (a : List α) :
    get_matching_blocks a a =
      if a.length = 0 then [(0, 0, 0)]
      else [(0, 0, a.length), (a.length, a.length, 0)] := by
  by_cases hlen : a.length = 0
  · rw [if_pos hlen]
    rw [List.length_eq_zero] at hlen
    subst hlen
    rfl
  · rw [if_neg hlen]
    unfold get_matching_blocks gmbLoop
    have hsm : stackMeasure [(0, a.length, 0, a.length)] =
        (a.length - 0) + (a.length - 0) + 1 := by
      simp [stackMeasure]
    rw [hsm, gmbLoopGo_self a hlen]
    have hsort : sortBlocks [(0, 0, a.length)] = [(0, 0, a.length)] := rfl
    rw [hsort]
    rw [collapseGo, if_pos ⟨rfl, rfl⟩, collapseGo]
    rw [if_pos (by omega)]
    simp

/-- `get_opcodes` on two copies of `a`: a single `equal` opcode over all of
`a` (none at all when `a` is empty). -/
lemma opcodes_self (a : List α) :
    get_opcodes a a =
      if a.length = 0 then []
      else [⟨Tag.equal, 0, a.length, 0, a.length⟩] := by
  unfold get_opcodes
  rw [gmb_self]
  by_cases hlen : a.length = 0
  · rw [if_pos hlen, if_pos hlen]
    rfl
  · rw [if_neg hlen, if_neg hlen]
    simp [opcodesGo, hlen]

/-- `get_grouped_opcodes` with the default context width on two copies of
`a` yields no groups: the lone `equal` opcode is trimmed to at most three
lines of context and the final single-`equal` group is suppressed. -/
lemma grouped_self (a : List α) : get_grouped_opcodes a a 3 = [] := by
  simp only [get_grouped_opcodes, opcodes_self]
  by_cases hlen : a.length = 0
  · rw [if_pos hlen]
    rfl
  · rw [if_neg hlen, if_neg (by simp)]
    have hcond : ¬(3 + 3 < min a.length (a.length - 3 + 3) - (a.length - 3)) := by
      omega
    simp [trimHead, trimLast, groupGo, yieldFinal, hcond]

/-- `unified_diff` of a line list against itself is empty (no groups, hence
not even the `---`/`+++` header lines). -/
lemma unified_diff_self (l : List (List Char)) (f t : List Char) :
    unified_diff l l f t = [] := by
  simp only [unified_diff, grouped_self]
  rfl

/-- `SequenceMatcher.ratio()` on two equal sequences is exactly 1. -/
lemma sm_ratio_self (a : List α) : sm_ratio a a = 1 := by
  unfold sm_ratio
  rw [gmb_self]
  by_cases hlen : a.length = 0
  · rw [if_pos hlen, hlen]
    norm_num [calculate_ratio]
  · rw [if_neg hlen]
    simp only [List.map_cons, List.map_nil, List.sum_cons, List.sum_nil]
    unfold calculate_ratio
    rw [if_pos (by omega)]
    have hq : (a.length : ℚ) ≠ 0 := by
      exact_mod_cast hlen
    push_cast
    field_simp
    ring

/-- Shared consequence of equal joined texts: `identical` is set, the diff
line list is empty, no detailed entries are produced and the similarity
ratio is exactly 1. -/
lemma compare_text_ok_eq_texts (pages1 pages2 : List (List Char))
    (name1 name2 : List Char) (detailed : Bool) (heq : joinPages pages1 = joinPages pages2) :
    (compare_text_ok pages1 pages2 name1 name2 detailed).identical = true ∧
    unified_diff (splitlines (joinPages pages1))
      (splitlines (joinPages pages2)) name1 name2 = [] ∧
    (compare_text_ok pages1 pages2 name1 name2
      detailed).detailed_differences = none ∧
    (compare_text_ok pages1 pages2 name1 name2 detailed).similarity = 1 := by
  have hud : unified_diff (splitlines (joinPages pages1))
      (splitlines (joinPages pages2)) name1 name2 = [] := by
    rw [heq]
    exact unified_diff_self _ _ _
  refine ⟨?_, hud, ?_, ?_⟩
  · show decide (joinPages pages1 = joinPages pages2) = true
    exact decide_eq_true heq
  · show (if detailed && !(unified_diff (splitlines (joinPages pages1))
        (splitlines (joinPages pages2)) name1 name2).isEmpty then
        some (extract_detailed_positions
          (unified_diff (splitlines (joinPages pages1))
            (splitlines (joinPages pages2)) name1 name2)
          (splitlines (joinPages pages1)) (splitlines (joinPages pages2))
          pages1 pages2)
      else none) = none
    rw [hud]
    simp
  · show sm_ratio (joinPages pages1) (joinPages pages2) = 1
    rw [heq]
    exact sm_ratio_self _

/-- C1: for every pair of documents, the text comparison's `identical` flag
is true exactly when the joined extracted texts are byte-equal and the diff
produces zero entries (empty unified-diff line list, hence an empty
detailed-entry list); in particular, byte-identical page lists yield
`identical = true`, no detailed entries and similarity exactly 1. -/
theorem C1_identical_text (pages1 pages2 : List (List Char))
    (name1 name2 : List Char) (detailed : Bool) :
    ((compare_text_ok pages1 pages2 name1 name2 detailed).identical = true ↔
      (joinPages pages1 = joinPages pages2 ∧
        unified_diff (splitlines (joinPages pages1))
          (splitlines (joinPages pages2)) name1 name2 = [] ∧
        ((compare_text_ok pages1 pages2 name1 name2
          detailed).detailed_differences).getD [] = [])) ∧
    (pages1 = pages2 →
      (compare_text_ok pages1 pages2 name1 name2 detailed).identical = true ∧
      ((compare_text_ok pages1 pages2 name1 name2
        detailed).detailed_differences).getD [] = [] ∧
      (compare_text_ok pages1 pages2 name1 name2 detailed).similarity = 1) := by
  constructor
  · constructor
    · intro h
      have heq : joinPages pages1 = joinPages pages2 := by
        have hd : decide (joinPages pages1 = joinPages pages2) = true := h
        exact of_decide_eq_true hd
      obtain ⟨-, hud, hdd, -⟩ :=
        compare_text_ok_eq_texts pages1 pages2 name1 name2 detailed heq
      refine ⟨heq, hud, ?_⟩
      rw [hdd]
      rfl
    · rintro ⟨heq, -, -⟩
      exact (compare_text_ok_eq_texts pages1 pages2 name1 name2 detailed heq).1
  · intro hpp
    have heq : joinPages pages1 = joinPages pages2 := by rw [hpp]
    obtain ⟨h1, -, hdd, hsim⟩ :=
      compare_text_ok_eq_texts pages1 pages2 name1 name2 detailed heq
    refine ⟨h1, ?_, hsim⟩
    rw [hdd]
    rfl

/-- Witness for C1 at a concrete pair of byte-identical one-page
documents. -/
theorem C1_identical_text_witness :
    (compare_text_ok [['a']] [['a']] [] [] true).identical = true ∧
    ((compare_text_ok [['a']] [['a']] [] []
      true).detailed_differences).getD [] = [] ∧
    (compare_text_ok [['a']] [['a']] [] [] true).similarity = 1 :=
  (C1_identical_text [['a']] [['a']] [] [] true).2 rfl
